import Mathlib

/-!
Verification of the Suno callback server (`suno_callback.js`).

The server is a single Express process: a JSON-file store (`readDb` /
`writeDb`), an optional shared-secret auth guard (`checkAuth`), a callback
ingest route (`POST /suno/callback`), query routes (`GET /callbacks/:id`)
and an HTML dashboard (`GET /`).

The embedding below models JavaScript values exchanged through
`JSON.parse` / `JSON.stringify` with an inductive `Json` type.  Numbers are
modelled as integers (the records the server builds and the documents it
stores are integer-valued; IEEE-754 floats are outside the model), and
strings are Unicode scalar sequences (lone UTF-16 surrogates are outside
the model).  File contents are plain strings; the missing-file /
unreadable-file case is `Option.none`.  Thrown JavaScript `TypeError`s are
modelled with `Except`.
-/

namespace Suno

/-- JSON values, as produced by `JSON.parse` and consumed by
`JSON.stringify`.  Object fields are kept in JavaScript property
(insertion) order. -/
inductive Json where
  | null : Json
  | bool (b : Bool) : Json
  | num (n : Int) : Json
  | str (s : String) : Json
  | arr (items : List Json) : Json
  | obj (fields : List (String × Json)) : Json
deriving Repr

/-- The opening brace character. -/
def obrace : Char := Char.ofNat 123

/-- The closing brace character. -/
def cbrace : Char := Char.ofNat 125

/-- Decimal digit to character. -/
def digitChar (d : Nat) : Char := Char.ofNat (48 + d)

/-- Decimal printing of a natural number, as JavaScript number-to-string
conversion renders integer-valued numbers. -/
def natPrint (n : Nat) : List Char :=
  if h : n < 10 then [digitChar n]
  else natPrint (n / 10) ++ [digitChar (n % 10)]
termination_by n
decreasing_by
  exact Nat.div_lt_self (by omega) (by omega)

/-- Decimal printing of an integer. -/
def intPrint (n : Int) : List Char :=
  if n < 0 then '-' :: natPrint n.natAbs else natPrint n.natAbs

/-- JavaScript decimal rendering of a natural number (used by the template
literal building record ids, and by `JSON.stringify` for numbers). -/
def natToString (n : Nat) : String := String.mk (natPrint n)

/-- JavaScript decimal rendering of an integer. -/
def intToString (n : Int) : String := String.mk (intPrint n)

/-- Lower-case hexadecimal digit, as `JSON.stringify` emits in `\u00xx`
escapes. -/
def hexDigitChar (d : Nat) : Char :=
  if d < 10 then Char.ofNat (48 + d) else Char.ofNat (87 + d)

/-- How `JSON.stringify` escapes one character inside a string literal:
quote, backslash and the named control escapes get a two-character escape,
other control characters get a `\u00xx` escape, everything else is emitted
verbatim. -/
def escapeChar (c : Char) : List Char :=
  if c = '"' then ['\\', '"']
  else if c = '\\' then ['\\', '\\']
  else if c = '\x08' then ['\\', 'b']
  else if c = '\x09' then ['\\', 't']
  else if c = '\x0a' then ['\\', 'n']
  else if c = '\x0c' then ['\\', 'f']
  else if c = '\x0d' then ['\\', 'r']
  else if c.toNat < 32 then
    ['\\', 'u', '0', '0', hexDigitChar (c.toNat / 16), hexDigitChar (c.toNat % 16)]
  else [c]

/-- A JSON string literal: quote, escaped characters, quote. -/
def quoteChars (s : String) : List Char :=
  '"' :: (s.data.map escapeChar).flatten ++ ['"']

/-- The indentation emitted by `JSON.stringify(data, null, 2)` at nesting
depth `d`. -/
def indentChars (d : Nat) : List Char := List.replicate (2 * d) ' '

mutual

/-- The text `JSON.stringify(v, null, 2)` emits at nesting depth `d`, as a character
list. -/
def printVal (d : Nat) : Json → List Char
  | .null => "null".data
  | .bool b => (cond b "true" "false").data
  | .num n => intPrint n
  | .str s => quoteChars s
  | .arr [] => ['[', ']']
  | .arr (x :: xs) =>
      '[' :: '\n' :: (printItems (d + 1) x xs ++ '\n' :: (indentChars d ++ [']']))
  | .obj [] => [obrace, cbrace]
  | .obj (f :: fs) =>
      obrace :: '\n' :: (printFields (d + 1) f fs ++ '\n' :: (indentChars d ++ [cbrace]))
termination_by j => sizeOf j
decreasing_by all_goals (simp_wf <;> omega)

/-- The element lines of a pretty-printed non-empty array. -/
def printItems (d : Nat) (x : Json) : List Json → List Char
  | [] => indentChars d ++ printVal d x
  | y :: ys => indentChars d ++ printVal d x ++ ',' :: '\n' :: printItems d y ys
termination_by xs => sizeOf x + sizeOf xs
decreasing_by all_goals (simp_wf <;> omega)

/-- The member lines of a pretty-printed non-empty object. -/
def printFields (d : Nat) : String × Json → List (String × Json) → List Char
  | (k, v), [] => indentChars d ++ quoteChars k ++ ':' :: ' ' :: printVal d v
  | (k, v), g :: gs =>
      indentChars d ++ quoteChars k ++ ':' :: ' ' :: printVal d v ++
        ',' :: '\n' :: printFields d g gs
termination_by f fs => sizeOf f + sizeOf fs
decreasing_by all_goals (simp_wf <;> omega)

end

/-- The output of `JSON.stringify(v, null, 2)`. -/
def jsonStringify (v : Json) : String := String.mk (printVal 0 v)

/-! ### The parser: a model of `JSON.parse`

The parser follows the JSON grammar (RFC 8259), which is what `JSON.parse`
accepts: optional whitespace around tokens, no leading zeros in numbers, no
trailing text.  Recursion is fuelled; `parseJson` supplies fuel that is
ample for every input (three units per input character), so running out of
fuel coincides with inputs the grammar rejects. -/

/-- The insignificant whitespace characters of the JSON grammar. -/
def isJsonWs (c : Char) : Bool :=
  c = ' ' || c = '\t' || c = '\n' || c = '\r'

/-- Drop insignificant whitespace. -/
def skipWs : List Char → List Char
  | [] => []
  | c :: cs => if isJsonWs c then skipWs cs else c :: cs

/-- ASCII decimal digit test. -/
def isDigitChar (c : Char) : Bool :=
  48 ≤ c.toNat && c.toNat ≤ 57

/-- Consume a maximal run of digits, accumulating their value. -/
def parseDigitsAux (acc : Nat) : List Char → Nat × List Char
  | [] => (acc, [])
  | c :: cs =>
      if isDigitChar c then parseDigitsAux (acc * 10 + (c.toNat - 48)) cs
      else (acc, c :: cs)

/-- Parse an unsigned JSON integer: a digit run with no leading zero
(a lone `0` stands for itself). -/
def parseNum : List Char → Option (Nat × List Char)
  | [] => none
  | c :: cs =>
      if c = '0' then
        match cs with
        | [] => some (0, [])
        | d :: _ => if isDigitChar d then none else some (0, cs)
      else if isDigitChar c then some (parseDigitsAux 0 (c :: cs))
      else none

/-- Hexadecimal digit value, upper or lower case. -/
def hexVal (c : Char) : Option Nat :=
  if 48 ≤ c.toNat && c.toNat ≤ 57 then some (c.toNat - 48)
  else if 97 ≤ c.toNat && c.toNat ≤ 102 then some (c.toNat - 87)
  else if 65 ≤ c.toNat && c.toNat ≤ 70 then some (c.toNat - 55)
  else none

/-- Prepend a character to the string being collected by `parseStrChars`. -/
def consStr (c : Char) : Option (List Char × List Char) → Option (List Char × List Char)
  | some (l, r) => some (c :: l, r)
  | none => none

/-- Parse the body of a JSON string literal (the opening quote already
consumed), decoding escapes, up to and including the closing quote. -/
def parseStrChars : Nat → List Char → Option (List Char × List Char)
  | 0, _ => none
  | _, [] => none
  | fuel + 1, c :: rest =>
      if c = '"' then some ([], rest)
      else if c = '\\' then
        match rest with
        | [] => none
        | e :: rest2 =>
            if e = '"' then consStr '"' (parseStrChars fuel rest2)
            else if e = '\\' then consStr '\\' (parseStrChars fuel rest2)
            else if e = '/' then consStr '/' (parseStrChars fuel rest2)
            else if e = 'b' then consStr '\x08' (parseStrChars fuel rest2)
            else if e = 'f' then consStr '\x0c' (parseStrChars fuel rest2)
            else if e = 'n' then consStr '\x0a' (parseStrChars fuel rest2)
            else if e = 'r' then consStr '\x0d' (parseStrChars fuel rest2)
            else if e = 't' then consStr '\x09' (parseStrChars fuel rest2)
            else if e = 'u' then
              match rest2 with
              | h1 :: h2 :: h3 :: h4 :: rest3 =>
                  match hexVal h1, hexVal h2, hexVal h3, hexVal h4 with
                  | some a, some b, some c2, some d2 =>
                      let n := ((a * 16 + b) * 16 + c2) * 16 + d2
                      if _ : n.isValidChar then
                        consStr (Char.ofNat n) (parseStrChars fuel rest3)
                      else none
                  | _, _, _, _ => none
              | _ => none
            else none
      else if c.toNat < 32 then none
      else consStr c (parseStrChars fuel rest)

mutual

/-- Parse one JSON value (with leading whitespace), as `JSON.parse`
recognises values. -/
def parseVal : Nat → List Char → Option (Json × List Char)
  | 0, _ => none
  | fuel + 1, cs =>
      match skipWs cs with
      | [] => none
      | c :: rest =>
          if c = 'n' then
            match rest with
            | 'u' :: 'l' :: 'l' :: r => some (.null, r)
            | _ => none
          else if c = 't' then
            match rest with
            | 'r' :: 'u' :: 'e' :: r => some (.bool true, r)
            | _ => none
          else if c = 'f' then
            match rest with
            | 'a' :: 'l' :: 's' :: 'e' :: r => some (.bool false, r)
            | _ => none
          else if c = '"' then
            match parseStrChars fuel rest with
            | some (l, r) => some (.str (String.mk l), r)
            | none => none
          else if c = '[' then
            match skipWs rest with
            | [] => none
            | d :: r =>
                if d = ']' then some (.arr [], r)
                else
                  match parseItems fuel (d :: r) with
                  | some (xs, r2) => some (.arr xs, r2)
                  | none => none
          else if c = obrace then
            match skipWs rest with
            | [] => none
            | d :: r =>
                if d = cbrace then some (.obj [], r)
                else
                  match parseFields fuel (d :: r) with
                  | some (fs, r2) => some (.obj fs, r2)
                  | none => none
          else if c = '-' then
            match parseNum rest with
            | some (n, r) => some (.num (-(n : Int)), r)
            | none => none
          else
            match parseNum (c :: rest) with
            | some (n, r) => some (.num (n : Int), r)
            | none => none

/-- Parse the comma-separated elements of a non-empty array, up to and
including the closing bracket. -/
def parseItems : Nat → List Char → Option (List Json × List Char)
  | 0, _ => none
  | fuel + 1, cs =>
      match parseVal fuel cs with
      | none => none
      | some (v, r) =>
          match skipWs r with
          | [] => none
          | c :: r2 =>
              if c = ',' then
                match parseItems fuel r2 with
                | some (vs, r3) => some (v :: vs, r3)
                | none => none
              else if c = ']' then some ([v], r2)
              else none

/-- Parse the comma-separated members of a non-empty object, up to and
including the closing brace. -/
def parseFields : Nat → List Char → Option (List (String × Json) × List Char)
  | 0, _ => none
  | fuel + 1, cs =>
      match skipWs cs with
      | [] => none
      | c :: rest =>
          if c = '"' then
            match parseStrChars fuel rest with
            | none => none
            | some (k, r) =>
                match skipWs r with
                | [] => none
                | c2 :: r2 =>
                    if c2 = ':' then
                      match parseVal fuel r2 with
                      | none => none
                      | some (v, r3) =>
                          match skipWs r3 with
                          | [] => none
                          | c3 :: r4 =>
                              if c3 = ',' then
                                match parseFields fuel r4 with
                                | some (fs, r5) => some ((String.mk k, v) :: fs, r5)
                                | none => none
                              else if c3 = cbrace then some ([(String.mk k, v)], r4)
                              else none
                    else none
          else none

end

/-- Model of `JSON.parse`: parse a complete document, allowing trailing whitespace
only.  `none` models a thrown `SyntaxError`. -/
def parseJson (s : String) : Option Json :=
  match parseVal (3 * s.length + 3) s.data with
  | some (v, rest) => if skipWs rest = [] then some v else none
  | none => none

/-! ### Character and digit lemmas -/

theorem char_toNat_ofNat {n : Nat} (h : n.isValidChar) : (Char.ofNat n).toNat = n := by
  simp [Char.ofNat, h, Char.toNat, Char.ofNatAux, UInt32.toNat, UInt32.ofNat']

theorem char_ne_of_toNat_ne {a b : Char} (h : a.toNat ≠ b.toNat) : a ≠ b :=
  fun e => h (by rw [e])

theorem digitChar_toNat {d : Nat} (h : d < 10) : (digitChar d).toNat = 48 + d :=
  char_toNat_ofNat (Or.inl (by omega))

theorem isDigitChar_digitChar {d : Nat} (h : d < 10) : isDigitChar (digitChar d) = true := by
  simp only [isDigitChar, digitChar_toNat h, Bool.and_eq_true, decide_eq_true_eq]
  omega

theorem isDigitChar_iff {c : Char} : isDigitChar c = true ↔ 48 ≤ c.toNat ∧ c.toNat ≤ 57 := by
  simp [isDigitChar]

/-- A character outside a digit-style numeric range differs from `c`. -/
theorem char_range_ne {c b : Char} {lo hi : Nat} (hc : lo ≤ c.toNat ∧ c.toNat ≤ hi)
    (hm : b.toNat < lo ∨ hi < b.toNat) : c ≠ b :=
  char_ne_of_toNat_ne (by omega)

/-- A digit character is not one of the characters the value parser
dispatches on before falling through to the number branch. -/
theorem digit_not_special {c : Char} (h : isDigitChar c = true) :
    c ≠ 'n' ∧ c ≠ 't' ∧ c ≠ 'f' ∧ c ≠ '"' ∧ c ≠ '[' ∧ c ≠ obrace ∧ c ≠ '-' ∧
      c ≠ ']' ∧ isJsonWs c = false := by
  rw [isDigitChar_iff] at h
  refine ⟨char_range_ne h (by decide), char_range_ne h (by decide),
    char_range_ne h (by decide), char_range_ne h (by decide),
    char_range_ne h (by decide), char_range_ne h (by decide),
    char_range_ne h (by decide), char_range_ne h (by decide), ?_⟩
  simp only [isJsonWs, Bool.or_eq_false_iff, decide_eq_false_iff_not]
  exact ⟨⟨⟨char_range_ne h (by decide), char_range_ne h (by decide)⟩,
    char_range_ne h (by decide)⟩, char_range_ne h (by decide)⟩

/-! ### Whitespace lemmas -/

theorem skipWs_not_ws {c : Char} (h : isJsonWs c = false) (cs : List Char) :
    skipWs (c :: cs) = c :: cs := by
  simp [skipWs, h]

theorem skipWs_ws_append {l : List Char} (h : ∀ c ∈ l, isJsonWs c = true) (cs : List Char) :
    skipWs (l ++ cs) = skipWs cs := by
  induction l with
  | nil => rfl
  | cons c t ih =>
      simp only [List.cons_append, skipWs, h c (by simp), if_true, if_false]
      exact ih fun c hc => h c (by simp [hc])

theorem skipWs_idem (cs : List Char) : skipWs (skipWs cs) = skipWs cs := by
  induction cs with
  | nil => rfl
  | cons c t ih =>
      by_cases h : isJsonWs c = true
      · simpa [skipWs, h] using ih
      · simp only [Bool.not_eq_true] at h
        simp [skipWs, h]

theorem indentChars_ws {d : Nat} : ∀ c ∈ indentChars d, isJsonWs c = true := by
  intro c hc
  have : c = ' ' := List.eq_of_mem_replicate (by simpa [indentChars] using hc)
  subst this
  rfl

/-! ### Number round-trip -/

theorem natPrint_lt {n : Nat} (h : n < 10) : natPrint n = [digitChar n] := by
  rw [natPrint]
  simp [h]

theorem natPrint_ge {n : Nat} (h : 10 ≤ n) :
    natPrint n = natPrint (n / 10) ++ [digitChar (n % 10)] := by
  rw [natPrint]
  simp [Nat.not_lt.2 h]

theorem natPrint_head (n : Nat) :
    ∃ c t, natPrint n = c :: t ∧ isDigitChar c = true ∧ (0 < n → c ≠ '0') := by
  induction n using Nat.strong_induction_on with
  | _ n ih =>
      by_cases h : n < 10
      · refine ⟨digitChar n, [], natPrint_lt h, isDigitChar_digitChar h, fun hn => ?_⟩
        exact char_ne_of_toNat_ne
          (by rw [digitChar_toNat h, show Char.toNat '0' = 48 from rfl]; omega)
      · push_neg at h
        obtain ⟨c, t, he, hd, h0⟩ := ih (n / 10) (Nat.div_lt_self (by omega) (by omega))
        exact ⟨c, t ++ [digitChar (n % 10)], by rw [natPrint_ge h, he]; rfl, hd,
          fun _ => h0 (by omega)⟩

/-- Heads that stop the digit scanner. -/
def noDigitHead : List Char → Bool
  | [] => true
  | c :: _ => !isDigitChar c

theorem parseDigitsAux_stop {rest : List Char} (h : noDigitHead rest = true) (acc : Nat) :
    parseDigitsAux acc rest = (acc, rest) := by
  cases rest with
  | nil => rfl
  | cons c t =>
      simp only [noDigitHead, Bool.not_eq_true'] at h
      simp [parseDigitsAux, h]

theorem parseDigitsAux_append (n : Nat) :
    ∀ acc rest, parseDigitsAux acc (natPrint n ++ rest) =
      parseDigitsAux (acc * 10 ^ (natPrint n).length + n) rest := by
  induction n using Nat.strong_induction_on with
  | _ n ih =>
      intro acc rest
      by_cases h : n < 10
      · rw [natPrint_lt h]
        simp [parseDigitsAux, isDigitChar_digitChar h, digitChar_toNat h]
      · push_neg at h
        rw [natPrint_ge h]
        have hlen : (natPrint (n / 10) ++ [digitChar (n % 10)]).length =
            (natPrint (n / 10)).length + 1 := by simp
        rw [List.append_assoc, List.cons_append, List.nil_append,
          ih (n / 10) (Nat.div_lt_self (by omega) (by omega)) acc
            (digitChar (n % 10) :: rest)]
        have h10 : n % 10 < 10 := Nat.mod_lt _ (by omega)
        simp only [parseDigitsAux, isDigitChar_digitChar h10, if_true, digitChar_toNat h10,
          hlen]
        congr 1
        have := Nat.div_add_mod n 10
        ring_nf
        omega

theorem parseNum_natPrint {rest : List Char} (h : noDigitHead rest = true) (n : Nat) :
    parseNum (natPrint n ++ rest) = some (n, rest) := by
  obtain ⟨c, t, he, hd, h0⟩ := natPrint_head n
  rcases Nat.eq_zero_or_pos n with rfl | hpos
  · have : natPrint 0 = ['0'] := natPrint_lt (by omega)
    rw [this]
    cases rest with
    | nil => rfl
    | cons r rs =>
        simp only [noDigitHead, Bool.not_eq_true'] at h
        simp [parseNum, h]
  · rw [he, List.cons_append]
    have hc0 : ¬ c = '0' := h0 hpos
    simp only [parseNum, hc0, if_false, hd, if_true, if_false]
    rw [← List.cons_append, ← he, parseDigitsAux_append n 0 rest]
    simp [parseDigitsAux_stop h]

/-! ### String-literal round-trip -/

theorem hexVal_hexDigitChar {d : Nat} (h : d < 16) : hexVal (hexDigitChar d) = some d := by
  interval_cases d <;> decide

theorem consStr_some {c : Char} {l r : List Char} {o : Option (List Char × List Char)}
    (h : o = some (l, r)) : consStr c o = some (c :: l, r) := by
  rw [h]
  rfl

theorem parseStrChars_closing (fuel : Nat) (rest : List Char) :
    parseStrChars (fuel + 1) ('"' :: rest) = some ([], rest) := rfl

theorem parseStrChars_escQ (fuel : Nat) (rest : List Char) :
    parseStrChars (fuel + 1) ('\\' :: '"' :: rest) = consStr '"' (parseStrChars fuel rest) := rfl

theorem parseStrChars_escBack (fuel : Nat) (rest : List Char) :
    parseStrChars (fuel + 1) ('\\' :: '\\' :: rest) =
      consStr '\\' (parseStrChars fuel rest) := rfl

theorem parseStrChars_escb (fuel : Nat) (rest : List Char) :
    parseStrChars (fuel + 1) ('\\' :: 'b' :: rest) =
      consStr '\x08' (parseStrChars fuel rest) := rfl

theorem parseStrChars_esct (fuel : Nat) (rest : List Char) :
    parseStrChars (fuel + 1) ('\\' :: 't' :: rest) =
      consStr '\x09' (parseStrChars fuel rest) := rfl

theorem parseStrChars_escn (fuel : Nat) (rest : List Char) :
    parseStrChars (fuel + 1) ('\\' :: 'n' :: rest) =
      consStr '\x0a' (parseStrChars fuel rest) := rfl

theorem parseStrChars_escf (fuel : Nat) (rest : List Char) :
    parseStrChars (fuel + 1) ('\\' :: 'f' :: rest) =
      consStr '\x0c' (parseStrChars fuel rest) := rfl

theorem parseStrChars_escr (fuel : Nat) (rest : List Char) :
    parseStrChars (fuel + 1) ('\\' :: 'r' :: rest) =
      consStr '\x0d' (parseStrChars fuel rest) := rfl

theorem parseStrChars_escU {h1 h2 h3 h4 : Char} {a b c2 d2 : Nat} (fuel : Nat)
    (rest : List Char) (e1 : hexVal h1 = some a) (e2 : hexVal h2 = some b)
    (e3 : hexVal h3 = some c2) (e4 : hexVal h4 = some d2)
    (hv : (((a * 16 + b) * 16 + c2) * 16 + d2).isValidChar) :
    parseStrChars (fuel + 1) ('\\' :: 'u' :: h1 :: h2 :: h3 :: h4 :: rest) =
      consStr (Char.ofNat (((a * 16 + b) * 16 + c2) * 16 + d2)) (parseStrChars fuel rest) := by
  have base : parseStrChars (fuel + 1) ('\\' :: 'u' :: h1 :: h2 :: h3 :: h4 :: rest) =
      (match hexVal h1, hexVal h2, hexVal h3, hexVal h4 with
        | some a, some b, some c2, some d2 =>
            if _ : (((a * 16 + b) * 16 + c2) * 16 + d2).isValidChar then
              consStr (Char.ofNat (((a * 16 + b) * 16 + c2) * 16 + d2))
                (parseStrChars fuel rest)
            else none
        | _, _, _, _ => none) := rfl
  rw [base, e1, e2, e3, e4]
  exact dif_pos hv

theorem parseStrChars_step (fuel : Nat) (c : Char) (rest : List Char)
    (h1 : c ≠ '"') (h2 : c ≠ '\\') (h3 : ¬ c.toNat < 32) :
    parseStrChars (fuel + 1) (c :: rest) = consStr c (parseStrChars fuel rest) := by
  have base : parseStrChars (fuel + 1) (c :: rest) =
      (if c = '"' then some ([], rest)
       else if c = '\\' then
        (match rest with
         | [] => none
         | e :: rest2 =>
            if e = '"' then consStr '"' (parseStrChars fuel rest2)
            else if e = '\\' then consStr '\\' (parseStrChars fuel rest2)
            else if e = '/' then consStr '/' (parseStrChars fuel rest2)
            else if e = 'b' then consStr '\x08' (parseStrChars fuel rest2)
            else if e = 'f' then consStr '\x0c' (parseStrChars fuel rest2)
            else if e = 'n' then consStr '\x0a' (parseStrChars fuel rest2)
            else if e = 'r' then consStr '\x0d' (parseStrChars fuel rest2)
            else if e = 't' then consStr '\x09' (parseStrChars fuel rest2)
            else if e = 'u' then
              match rest2 with
              | h1 :: h2 :: h3 :: h4 :: rest3 =>
                  match hexVal h1, hexVal h2, hexVal h3, hexVal h4 with
                  | some a, some b, some c2, some d2 =>
                      if _ : (((a * 16 + b) * 16 + c2) * 16 + d2).isValidChar then
                        consStr (Char.ofNat (((a * 16 + b) * 16 + c2) * 16 + d2))
                          (parseStrChars fuel rest3)
                      else none
                  | _, _, _, _ => none
              | _ => none
            else none)
       else if c.toNat < 32 then none
       else consStr c (parseStrChars fuel rest)) := rfl
  rw [base, if_neg h1, if_neg h2, if_neg h3]

theorem parseStrChars_quote :
    ∀ (l : List Char) (fuel : Nat) (rest : List Char), l.length + 1 ≤ fuel →
      parseStrChars fuel ((l.map escapeChar).flatten ++ '"' :: rest) = some (l, rest) := by
  intro l
  induction l with
  | nil =>
      intro fuel rest hf
      match fuel, hf with
      | fuel + 1, _ => exact parseStrChars_closing fuel rest
  | cons c l ih =>
      intro fuel rest hf
      match fuel, hf with
      | fuel + 1, hf =>
        have hfl : l.length + 1 ≤ fuel := by
          simp only [List.length_cons] at hf
          omega
        have IH := ih fuel rest hfl
        simp only [List.map_cons, List.flatten_cons, List.append_assoc]
        by_cases h1 : c = '"'
        · subst h1
          rw [show escapeChar '"' = ['\\', '"'] from by decide]
          simp only [List.cons_append, List.nil_append]
          rw [parseStrChars_escQ]
          exact consStr_some IH
        · by_cases h2 : c = '\\'
          · subst h2
            rw [show escapeChar '\\' = ['\\', '\\'] from by decide]
            simp only [List.cons_append, List.nil_append]
            rw [parseStrChars_escBack]
            exact consStr_some IH
          · by_cases h3 : c = '\x08'
            · subst h3
              rw [show escapeChar '\x08' = ['\\', 'b'] from by decide]
              simp only [List.cons_append, List.nil_append]
              rw [parseStrChars_escb]
              exact consStr_some IH
            · by_cases h4 : c = '\x09'
              · subst h4
                rw [show escapeChar '\x09' = ['\\', 't'] from by decide]
                simp only [List.cons_append, List.nil_append]
                rw [parseStrChars_esct]
                exact consStr_some IH
              · by_cases h5 : c = '\x0a'
                · subst h5
                  rw [show escapeChar '\x0a' = ['\\', 'n'] from by decide]
                  simp only [List.cons_append, List.nil_append]
                  rw [parseStrChars_escn]
                  exact consStr_some IH
                · by_cases h6 : c = '\x0c'
                  · subst h6
                    rw [show escapeChar '\x0c' = ['\\', 'f'] from by decide]
                    simp only [List.cons_append, List.nil_append]
                    rw [parseStrChars_escf]
                    exact consStr_some IH
                  · by_cases h7 : c = '\x0d'
                    · subst h7
                      rw [show escapeChar '\x0d' = ['\\', 'r'] from by decide]
                      simp only [List.cons_append, List.nil_append]
                      rw [parseStrChars_escr]
                      exact consStr_some IH
                    · by_cases h8 : c.toNat < 32
                      · have hesc : escapeChar c =
                            ['\\', 'u', '0', '0', hexDigitChar (c.toNat / 16),
                              hexDigitChar (c.toNat % 16)] := by
                          simp [escapeChar, h1, h2, h3, h4, h5, h6, h7, h8]
                        rw [hesc]
                        simp only [List.cons_append, List.nil_append]
                        rw [parseStrChars_escU fuel _
                          (show hexVal '0' = some 0 from by decide)
                          (show hexVal '0' = some 0 from by decide)
                          (hexVal_hexDigitChar (by omega))
                          (hexVal_hexDigitChar (Nat.mod_lt _ (by omega)))
                          (Or.inl (by omega))]
                        have hn : ((((0 : Nat) * 16 + 0) * 16 + c.toNat / 16) * 16 +
                            c.toNat % 16) = c.toNat := by omega
                        rw [hn, Char.ofNat_toNat]
                        exact consStr_some IH
                      · have hesc : escapeChar c = [c] := by
                          simp [escapeChar, h1, h2, h3, h4, h5, h6, h7, h8]
                        rw [hesc]
                        simp only [List.cons_append, List.nil_append]
                        rw [parseStrChars_step fuel c _ h1 h2 h8]
                        exact consStr_some IH

/-! ### Fuel accounting

`parseJson` runs the fuelled parser; the functions below compute how much
fuel the printed form of a value needs, and are then bounded by the length
of the printed text. -/

mutual

def fuelNeed : Json → Nat
  | .null => 1
  | .bool _ => 1
  | .num _ => 1
  | .str s => s.data.length + 2
  | .arr [] => 1
  | .arr (x :: xs) => 1 + fuelItems x xs
  | .obj [] => 1
  | .obj (f :: fs) => 1 + fuelFields f fs
termination_by j => sizeOf j
decreasing_by all_goals (simp_wf <;> omega)

def fuelItems (x : Json) : List Json → Nat
  | [] => 1 + fuelNeed x
  | y :: ys => 1 + fuelNeed x + fuelItems y ys
termination_by xs => sizeOf x + sizeOf xs
decreasing_by all_goals (simp_wf <;> omega)

def fuelFields : String × Json → List (String × Json) → Nat
  | (k, v), [] => 2 + k.data.length + fuelNeed v
  | (k, v), g :: gs => 2 + k.data.length + fuelNeed v + fuelFields g gs
termination_by f fs => sizeOf f + sizeOf fs
decreasing_by all_goals (simp_wf <;> omega)

end

theorem fuelNeed_pos (v : Json) : 1 ≤ fuelNeed v := by
  cases v with
  | null => simp [fuelNeed]
  | bool b => simp [fuelNeed]
  | num n => simp [fuelNeed]
  | str s => simp only [fuelNeed]; omega
  | arr items => cases items <;> (simp only [fuelNeed]; omega)
  | obj fields => cases fields <;> (simp only [fuelNeed]; omega)

theorem fuelItems_pos (x : Json) (xs : List Json) : 1 ≤ fuelItems x xs := by
  cases xs <;> (simp only [fuelItems]; omega)

theorem fuelFields_pos (f : String × Json) (fs : List (String × Json)) :
    1 ≤ fuelFields f fs := by
  obtain ⟨k, v⟩ := f
  cases fs <;> (simp only [fuelFields]; omega)

/-! ### Parser step lemmas -/

theorem skipWs_cons_ws {c : Char} (h : isJsonWs c = true) (cs : List Char) :
    skipWs (c :: cs) = skipWs cs := by
  simp [skipWs, h]

theorem parseVal_body (fuel : Nat) (cs : List Char) :
    parseVal (fuel + 1) cs =
      (match skipWs cs with
      | [] => none
      | c :: rest =>
          if c = 'n' then
            match rest with
            | 'u' :: 'l' :: 'l' :: r => some (.null, r)
            | _ => none
          else if c = 't' then
            match rest with
            | 'r' :: 'u' :: 'e' :: r => some (.bool true, r)
            | _ => none
          else if c = 'f' then
            match rest with
            | 'a' :: 'l' :: 's' :: 'e' :: r => some (.bool false, r)
            | _ => none
          else if c = '"' then
            match parseStrChars fuel rest with
            | some (l, r) => some (.str (String.mk l), r)
            | none => none
          else if c = '[' then
            match skipWs rest with
            | [] => none
            | d :: r =>
                if d = ']' then some (.arr [], r)
                else
                  match parseItems fuel (d :: r) with
                  | some (xs, r2) => some (.arr xs, r2)
                  | none => none
          else if c = obrace then
            match skipWs rest with
            | [] => none
            | d :: r =>
                if d = cbrace then some (.obj [], r)
                else
                  match parseFields fuel (d :: r) with
                  | some (fs, r2) => some (.obj fs, r2)
                  | none => none
          else if c = '-' then
            match parseNum rest with
            | some (n, r) => some (.num (-(n : Int)), r)
            | none => none
          else
            match parseNum (c :: rest) with
            | some (n, r) => some (.num ((n : Int)), r)
            | none => none) := rfl

theorem parseItems_body (fuel : Nat) (cs : List Char) :
    parseItems (fuel + 1) cs =
      (match parseVal fuel cs with
      | none => none
      | some (v, r) =>
          match skipWs r with
          | [] => none
          | c :: r2 =>
              if c = ',' then
                match parseItems fuel r2 with
                | some (vs, r3) => some (v :: vs, r3)
                | none => none
              else if c = ']' then some ([v], r2)
              else none) := rfl

theorem parseFields_body (fuel : Nat) (cs : List Char) :
    parseFields (fuel + 1) cs =
      (match skipWs cs with
      | [] => none
      | c :: rest =>
          if c = '"' then
            match parseStrChars fuel rest with
            | none => none
            | some (k, r) =>
                match skipWs r with
                | [] => none
                | c2 :: r2 =>
                    if c2 = ':' then
                      match parseVal fuel r2 with
                      | none => none
                      | some (v, r3) =>
                          match skipWs r3 with
                          | [] => none
                          | c3 :: r4 =>
                              if c3 = ',' then
                                match parseFields fuel r4 with
                                | some (fs, r5) => some ((String.mk k, v) :: fs, r5)
                                | none => none
                              else if c3 = cbrace then some ([(String.mk k, v)], r4)
                              else none
                    else none
          else none) := rfl

theorem parseVal_congr_ws {cs cs2 : List Char} (fuel : Nat)
    (h : skipWs cs = skipWs cs2) : parseVal fuel cs = parseVal fuel cs2 := by
  cases fuel with
  | zero => rfl
  | succ f => rw [parseVal_body, parseVal_body, h]

theorem parseItems_congr_ws {cs cs2 : List Char} (fuel : Nat)
    (h : skipWs cs = skipWs cs2) : parseItems fuel cs = parseItems fuel cs2 := by
  cases fuel with
  | zero => rfl
  | succ f => rw [parseItems_body, parseItems_body, parseVal_congr_ws f h]

theorem parseFields_congr_ws {cs cs2 : List Char} (fuel : Nat)
    (h : skipWs cs = skipWs cs2) : parseFields fuel cs = parseFields fuel cs2 := by
  cases fuel with
  | zero => rfl
  | succ f => rw [parseFields_body, parseFields_body, h]

/-! ### Shape of the printed text -/

theorem printVal_head (d : Nat) (v : Json) :
    ∃ c0 t0, printVal d v = c0 :: t0 ∧ isJsonWs c0 = false ∧ c0 ≠ ']' := by
  cases v with
  | null =>
      refine ⟨'n', ['u', 'l', 'l'], ?_, by decide, by decide⟩
      simp only [printVal]
  | bool b =>
      cases b
      · refine ⟨'f', ['a', 'l', 's', 'e'], ?_, by decide, by decide⟩
        simp only [printVal]
        rfl
      · refine ⟨'t', ['r', 'u', 'e'], ?_, by decide, by decide⟩
        simp only [printVal]
        rfl
  | num n =>
      by_cases hn : n < 0
      · refine ⟨'-', natPrint n.natAbs, ?_, by decide, by decide⟩
        simp only [printVal, intPrint, if_pos hn]
      · obtain ⟨c, t, he, hd, h0⟩ := natPrint_head n.natAbs
        obtain ⟨_, _, _, _, _, _, _, hne, hws⟩ := digit_not_special hd
        refine ⟨c, t, ?_, hws, hne⟩
        simp only [printVal, intPrint, if_neg hn]
        exact he
  | str s =>
      refine ⟨'"', (List.map escapeChar s.data).flatten ++ ['"'], ?_, by decide, by decide⟩
      simp only [printVal, quoteChars, List.cons_append]
  | arr items =>
      cases items with
      | nil =>
          refine ⟨'[', [']'], ?_, by decide, by decide⟩
          simp only [printVal]
      | cons x xs =>
          refine ⟨'[', '\n' :: (printItems (d + 1) x xs ++ '\n' :: (indentChars d ++ [']'])),
            ?_, by decide, by decide⟩
          simp only [printVal]
  | obj fields =>
      cases fields with
      | nil =>
          refine ⟨obrace, [cbrace], ?_, by decide, by decide⟩
          simp only [printVal]
      | cons f fs =>
          refine ⟨obrace,
            '\n' :: (printFields (d + 1) f fs ++ '\n' :: (indentChars d ++ [cbrace])),
            ?_, by decide, by decide⟩
          simp only [printVal]

theorem printItems_decomp (d : Nat) (x : Json) (xs : List Json) :
    ∃ t, printItems d x xs = indentChars d ++ (printVal d x ++ t) := by
  cases xs with
  | nil => exact ⟨[], by simp only [printItems, List.append_nil, List.append_assoc]⟩
  | cons y ys =>
      exact ⟨',' :: '\n' :: printItems d y ys, by simp only [printItems, List.append_assoc]⟩

theorem printFields_decomp (d : Nat) (f : String × Json) (fs : List (String × Json)) :
    ∃ t, printFields d f fs = indentChars d ++ ('"' :: t) := by
  obtain ⟨k, v⟩ := f
  cases fs with
  | nil =>
      refine ⟨(k.data.map escapeChar).flatten ++ '"' :: (':' :: ' ' :: printVal d v), ?_⟩
      simp [printFields, quoteChars, List.append_assoc]
  | cons g gs =>
      refine ⟨(k.data.map escapeChar).flatten ++ '"' ::
        (':' :: ' ' :: (printVal d v ++ ',' :: '\n' :: printFields d g gs)), ?_⟩
      simp [printFields, quoteChars, List.append_assoc]

/-- The whitespace-normalised head of a printed non-empty array body is the
head of its first element. -/
theorem skipWs_printItems (d : Nat) (x : Json) (xs : List Json) (T : List Char) :
    ∃ c0 t0, skipWs (printItems d x xs ++ T) = c0 :: t0 ∧ isJsonWs c0 = false ∧
      c0 ≠ ']' := by
  obtain ⟨t, ht⟩ := printItems_decomp d x xs
  obtain ⟨c0, t0, hpv, hws, hne⟩ := printVal_head d x
  refine ⟨c0, t0 ++ (t ++ T), ?_, hws, hne⟩
  rw [ht, List.append_assoc, skipWs_ws_append indentChars_ws, List.append_assoc, hpv,
    List.cons_append, skipWs_not_ws hws]

/-- The whitespace-normalised head of a printed non-empty object body is the
quote opening its first key. -/
theorem skipWs_printFields (d : Nat) (f : String × Json) (fs : List (String × Json))
    (T : List Char) :
    ∃ t0, skipWs (printFields d f fs ++ T) = '"' :: t0 := by
  obtain ⟨t, ht⟩ := printFields_decomp d f fs
  refine ⟨t ++ T, ?_⟩
  rw [ht, List.append_assoc, skipWs_ws_append indentChars_ws, List.cons_append,
    skipWs_not_ws (by decide)]

/-- Value dispatch on the first significant character. -/
theorem parseVal_cons (fuel : Nat) {c : Char} {rest : List Char} :
    ∀ {cs : List Char}, skipWs cs = c :: rest →
    parseVal (fuel + 1) cs =
      (if c = 'n' then
        match rest with
        | 'u' :: 'l' :: 'l' :: r => some (.null, r)
        | _ => none
      else if c = 't' then
        match rest with
        | 'r' :: 'u' :: 'e' :: r => some (.bool true, r)
        | _ => none
      else if c = 'f' then
        match rest with
        | 'a' :: 'l' :: 's' :: 'e' :: r => some (.bool false, r)
        | _ => none
      else if c = '"' then
        match parseStrChars fuel rest with
        | some (l, r) => some (.str (String.mk l), r)
        | none => none
      else if c = '[' then
        match skipWs rest with
        | [] => none
        | d :: r =>
            if d = ']' then some (.arr [], r)
            else
              match parseItems fuel (d :: r) with
              | some (xs, r2) => some (.arr xs, r2)
              | none => none
      else if c = obrace then
        match skipWs rest with
        | [] => none
        | d :: r =>
            if d = cbrace then some (.obj [], r)
            else
              match parseFields fuel (d :: r) with
              | some (fs, r2) => some (.obj fs, r2)
              | none => none
      else if c = '-' then
        match parseNum rest with
        | some (n, r) => some (.num (-(n : Int)), r)
        | none => none
      else
        match parseNum (c :: rest) with
        | some (n, r) => some (.num ((n : Int)), r)
        | none => none) := by
  intro cs hsk
  have b := parseVal_body fuel cs
  rw [hsk] at b
  exact b

/-- The printed form of a value parses back to that value: mutual statement
for values, array bodies and object bodies, by induction on fuel. -/
theorem parsePrint : ∀ fuel : Nat,
    (∀ v d rest, fuelNeed v ≤ fuel → noDigitHead rest = true →
      parseVal fuel (printVal d v ++ rest) = some (v, rest)) ∧
    (∀ x xs d d2 rest, fuelItems x xs ≤ fuel →
      parseItems fuel (printItems d x xs ++ '\n' :: (indentChars d2 ++ ']' :: rest)) =
        some (x :: xs, rest)) ∧
    (∀ f fs d d2 rest, fuelFields f fs ≤ fuel →
      parseFields fuel (printFields d f fs ++ '\n' :: (indentChars d2 ++ cbrace :: rest)) =
        some (f :: fs, rest)) := by
  intro fuel
  induction fuel with
  | zero =>
      refine ⟨fun v d rest hfn _ => absurd hfn (by have := fuelNeed_pos v; omega),
        fun x xs d d2 rest hfi => absurd hfi (by have := fuelItems_pos x xs; omega),
        fun f fs d d2 rest hff => absurd hff (by have := fuelFields_pos f fs; omega)⟩
  | succ fuel ih =>
      obtain ⟨ihV, ihI, ihF⟩ := ih
      refine ⟨?_, ?_, ?_⟩
      · -- values
        intro v d rest hfn hnd
        cases v with
        | null =>
            have hp : printVal d .null ++ rest = 'n' :: ('u' :: 'l' :: 'l' :: rest) := by
              simp only [printVal]
              rfl
            rw [hp, parseVal_cons fuel (skipWs_not_ws (by decide) _), if_pos rfl]
            rfl
        | bool b =>
            cases b with
            | true =>
                have hp : printVal d (.bool true) ++ rest =
                    't' :: ('r' :: 'u' :: 'e' :: rest) := by
                  simp only [printVal]
                  rfl
                rw [hp, parseVal_cons fuel (skipWs_not_ws (by decide) _),
                  if_neg (by decide), if_pos rfl]
                rfl
            | false =>
                have hp : printVal d (.bool false) ++ rest =
                    'f' :: ('a' :: 'l' :: 's' :: 'e' :: rest) := by
                  simp only [printVal]
                  rfl
                rw [hp, parseVal_cons fuel (skipWs_not_ws (by decide) _),
                  if_neg (by decide), if_neg (by decide), if_pos rfl]
                rfl
        | num n =>
            by_cases hneg : n < 0
            · have hp : printVal d (.num n) ++ rest = '-' :: (natPrint n.natAbs ++ rest) := by
                simp only [printVal, intPrint, if_pos hneg, List.cons_append]
              rw [hp, parseVal_cons fuel (skipWs_not_ws (by decide) _),
                if_neg (by decide), if_neg (by decide), if_neg (by decide),
                if_neg (by decide), if_neg (by decide), if_neg (by decide), if_pos rfl,
                parseNum_natPrint hnd]
              have hval : -((n.natAbs : Int)) = n := by omega
              simp only [hval]
            · obtain ⟨c, t, he, hd, h0⟩ := natPrint_head n.natAbs
              obtain ⟨hc1, hc2, hc3, hc4, hc5, hc6, hc7, _, hws⟩ := digit_not_special hd
              have hp : printVal d (.num n) ++ rest = c :: (t ++ rest) := by
                simp only [printVal, intPrint, if_neg hneg, he, List.cons_append]
              rw [hp, parseVal_cons fuel (skipWs_not_ws hws _),
                if_neg hc1, if_neg hc2, if_neg hc3, if_neg hc4, if_neg hc5, if_neg hc6,
                if_neg hc7,
                show c :: (t ++ rest) = natPrint n.natAbs ++ rest from by
                  rw [he, List.cons_append],
                parseNum_natPrint hnd]
              have hval : ((n.natAbs : Int)) = n := by omega
              simp only [hval]
        | str s =>
            have hp : printVal d (.str s) ++ rest =
                '"' :: ((s.data.map escapeChar).flatten ++ '"' :: rest) := by
              simp only [printVal, quoteChars, List.cons_append, List.append_assoc,
                List.singleton_append, List.nil_append]
            have hb : s.data.length + 1 ≤ fuel := by
              simp only [fuelNeed] at hfn
              omega
            rw [hp, parseVal_cons fuel (skipWs_not_ws (by decide) _),
              if_neg (by decide), if_neg (by decide), if_neg (by decide), if_pos rfl,
              parseStrChars_quote s.data fuel rest hb]
        | arr items =>
            cases items with
            | nil =>
                have hp : printVal d (.arr []) ++ rest = '[' :: (']' :: rest) := by
                  simp only [printVal, List.cons_append, List.nil_append]
                rw [hp, parseVal_cons fuel (skipWs_not_ws (by decide) _),
                  if_neg (by decide), if_neg (by decide), if_neg (by decide),
                  if_neg (by decide), if_pos rfl]
                simp only [skipWs_not_ws (show isJsonWs ']' = false from by decide), if_true, if_false]
            | cons x xs =>
                have hfi : fuelItems x xs ≤ fuel := by
                  simp only [fuelNeed] at hfn
                  omega
                have hp : printVal d (.arr (x :: xs)) ++ rest =
                    '[' :: ('\n' :: (printItems (d + 1) x xs ++
                      '\n' :: (indentChars d ++ ']' :: rest))) := by
                  simp only [printVal, List.cons_append, List.append_assoc,
                    List.singleton_append, List.nil_append]
                obtain ⟨c0, t0, hsk2, hws0, hne0⟩ :=
                  skipWs_printItems (d + 1) x xs ('\n' :: (indentChars d ++ ']' :: rest))
                have hs3 : skipWs ('\n' :: (printItems (d + 1) x xs ++
                    '\n' :: (indentChars d ++ ']' :: rest))) = c0 :: t0 := by
                  rw [skipWs_cons_ws (by decide), hsk2]
                rw [hp, parseVal_cons fuel (skipWs_not_ws (by decide) _),
                  if_neg (by decide), if_neg (by decide), if_neg (by decide),
                  if_neg (by decide), if_pos rfl]
                simp only [hs3]
                rw [if_neg hne0]
                have hitems : parseItems fuel (c0 :: t0) =
                    some (x :: xs, rest) := by
                  rw [parseItems_congr_ws fuel
                    (show skipWs (c0 :: t0) = skipWs (printItems (d + 1) x xs ++
                      '\n' :: (indentChars d ++ ']' :: rest)) from by
                        rw [skipWs_not_ws hws0, hsk2])]
                  exact ihI x xs (d + 1) d rest hfi
                simp only [hitems]
        | obj fields =>
            cases fields with
            | nil =>
                have hp : printVal d (.obj []) ++ rest = obrace :: (cbrace :: rest) := by
                  simp only [printVal, List.cons_append, List.nil_append]
                rw [hp, parseVal_cons fuel (skipWs_not_ws (by decide) _),
                  if_neg (by decide), if_neg (by decide), if_neg (by decide),
                  if_neg (by decide), if_neg (by decide), if_pos rfl]
                simp only [skipWs_not_ws (show isJsonWs cbrace = false from by decide),
                  if_true, if_false]
            | cons f fs =>
                have hff : fuelFields f fs ≤ fuel := by
                  simp only [fuelNeed] at hfn
                  omega
                have hp : printVal d (.obj (f :: fs)) ++ rest =
                    obrace :: ('\n' :: (printFields (d + 1) f fs ++
                      '\n' :: (indentChars d ++ cbrace :: rest))) := by
                  simp only [printVal, List.cons_append, List.append_assoc,
                    List.singleton_append, List.nil_append]
                obtain ⟨t0, hsk2⟩ :=
                  skipWs_printFields (d + 1) f fs ('\n' :: (indentChars d ++ cbrace :: rest))
                have hs3 : skipWs ('\n' :: (printFields (d + 1) f fs ++
                    '\n' :: (indentChars d ++ cbrace :: rest))) = '"' :: t0 := by
                  rw [skipWs_cons_ws (by decide), hsk2]
                rw [hp, parseVal_cons fuel (skipWs_not_ws (by decide) _),
                  if_neg (by decide), if_neg (by decide), if_neg (by decide),
                  if_neg (by decide), if_neg (by decide), if_pos rfl]
                simp only [hs3]
                rw [if_neg (show ('"' : Char) ≠ cbrace from by decide)]
                have hflds : parseFields fuel ('"' :: t0) = some (f :: fs, rest) := by
                  rw [parseFields_congr_ws fuel
                    (show skipWs ('"' :: t0) = skipWs (printFields (d + 1) f fs ++
                      '\n' :: (indentChars d ++ cbrace :: rest)) from by
                        rw [skipWs_not_ws (by decide), hsk2])]
                  exact ihF f fs (d + 1) d rest hff
                simp only [hflds]
      · -- array bodies
        intro x xs d d2 rest hfi
        cases xs with
        | nil =>
            have hfx : fuelNeed x ≤ fuel := by
              simp only [fuelItems] at hfi
              omega
            have hp : printItems d x [] ++ '\n' :: (indentChars d2 ++ ']' :: rest) =
                indentChars d ++ (printVal d x ++
                  '\n' :: (indentChars d2 ++ ']' :: rest)) := by
              simp only [printItems, List.append_assoc]
            rw [hp, parseItems_body]
            have hv : parseVal fuel (indentChars d ++ (printVal d x ++
                '\n' :: (indentChars d2 ++ ']' :: rest))) =
                some (x, '\n' :: (indentChars d2 ++ ']' :: rest)) := by
              rw [parseVal_congr_ws fuel (skipWs_ws_append indentChars_ws _)]
              exact ihV x d _ hfx rfl
            simp only [hv]
            have hsT : skipWs ('\n' :: (indentChars d2 ++ ']' :: rest)) = ']' :: rest := by
              rw [skipWs_cons_ws (by decide), skipWs_ws_append indentChars_ws,
                skipWs_not_ws (by decide)]
            simp +decide only [hsT, if_true, if_false]
        | cons y ys =>
            have hfx : fuelNeed x ≤ fuel := by
              simp only [fuelItems] at hfi
              omega
            have hfy : fuelItems y ys ≤ fuel := by
              simp only [fuelItems] at hfi
              omega
            have hp : printItems d x (y :: ys) ++ '\n' :: (indentChars d2 ++ ']' :: rest) =
                indentChars d ++ (printVal d x ++
                  ',' :: ('\n' :: (printItems d y ys ++
                    '\n' :: (indentChars d2 ++ ']' :: rest)))) := by
              simp only [printItems, List.append_assoc, List.cons_append]
            rw [hp, parseItems_body]
            have hv : parseVal fuel (indentChars d ++ (printVal d x ++
                ',' :: ('\n' :: (printItems d y ys ++
                  '\n' :: (indentChars d2 ++ ']' :: rest))))) =
                some (x, ',' :: ('\n' :: (printItems d y ys ++
                  '\n' :: (indentChars d2 ++ ']' :: rest)))) := by
              rw [parseVal_congr_ws fuel (skipWs_ws_append indentChars_ws _)]
              exact ihV x d _ hfx rfl
            have hrec : parseItems fuel ('\n' :: (printItems d y ys ++
                '\n' :: (indentChars d2 ++ ']' :: rest))) = some (y :: ys, rest) := by
              rw [parseItems_congr_ws fuel (skipWs_cons_ws (by decide) _)]
              exact ihI y ys d d2 rest hfy
            simp +decide only [hv, skipWs_not_ws (show isJsonWs ',' = false from by decide),
              if_true, if_false, hrec]
      · -- object bodies
        intro f fs d d2 rest hff
        obtain ⟨k, v⟩ := f
        cases fs with
        | nil =>
            have hbk : k.data.length + 1 ≤ fuel := by
              have := fuelNeed_pos v
              simp only [fuelFields] at hff
              omega
            have hbv : fuelNeed v ≤ fuel := by
              simp only [fuelFields] at hff
              omega
            have hp : printFields d (k, v) [] ++ '\n' :: (indentChars d2 ++ cbrace :: rest) =
                indentChars d ++ ('"' :: ((k.data.map escapeChar).flatten ++
                  '"' :: (':' :: (' ' :: (printVal d v ++
                    '\n' :: (indentChars d2 ++ cbrace :: rest)))))) := by
              simp only [printFields, quoteChars, List.append_assoc, List.cons_append,
                List.singleton_append, List.nil_append]
            rw [hp, parseFields_body]
            have hs1 : skipWs (indentChars d ++ ('"' :: ((k.data.map escapeChar).flatten ++
                '"' :: (':' :: (' ' :: (printVal d v ++
                  '\n' :: (indentChars d2 ++ cbrace :: rest))))))) =
                '"' :: ((k.data.map escapeChar).flatten ++
                  '"' :: (':' :: (' ' :: (printVal d v ++
                    '\n' :: (indentChars d2 ++ cbrace :: rest))))) := by
              rw [skipWs_ws_append indentChars_ws, skipWs_not_ws (by decide)]
            have hstr := parseStrChars_quote k.data fuel
              (':' :: (' ' :: (printVal d v ++
                '\n' :: (indentChars d2 ++ cbrace :: rest)))) hbk
            have hv : parseVal fuel (' ' :: (printVal d v ++
                '\n' :: (indentChars d2 ++ cbrace :: rest))) =
                some (v, '\n' :: (indentChars d2 ++ cbrace :: rest)) := by
              rw [parseVal_congr_ws fuel (skipWs_cons_ws (by decide) _)]
              exact ihV v d _ hbv rfl
            have hsT : skipWs ('\n' :: (indentChars d2 ++ cbrace :: rest)) =
                cbrace :: rest := by
              rw [skipWs_cons_ws (by decide), skipWs_ws_append indentChars_ws,
                skipWs_not_ws (by decide)]
            simp +decide only [hs1, if_true, if_false, hstr,
              skipWs_not_ws (show isJsonWs ':' = false from by decide), hv, hsT]
        | cons g gs =>
            have hbk : k.data.length + 1 ≤ fuel := by
              have := fuelNeed_pos v
              have := fuelFields_pos g gs
              simp only [fuelFields] at hff
              omega
            have hbv : fuelNeed v ≤ fuel := by
              simp only [fuelFields] at hff
              omega
            have hbg : fuelFields g gs ≤ fuel := by
              simp only [fuelFields] at hff
              omega
            have hp : printFields d (k, v) (g :: gs) ++
                '\n' :: (indentChars d2 ++ cbrace :: rest) =
                indentChars d ++ ('"' :: ((k.data.map escapeChar).flatten ++
                  '"' :: (':' :: (' ' :: (printVal d v ++
                    ',' :: ('\n' :: (printFields d g gs ++
                      '\n' :: (indentChars d2 ++ cbrace :: rest)))))))) := by
              simp only [printFields, quoteChars, List.append_assoc, List.cons_append,
                List.singleton_append, List.nil_append]
            rw [hp, parseFields_body]
            have hs1 : skipWs (indentChars d ++ ('"' :: ((k.data.map escapeChar).flatten ++
                '"' :: (':' :: (' ' :: (printVal d v ++
                  ',' :: ('\n' :: (printFields d g gs ++
                    '\n' :: (indentChars d2 ++ cbrace :: rest))))))))) =
                '"' :: ((k.data.map escapeChar).flatten ++
                  '"' :: (':' :: (' ' :: (printVal d v ++
                    ',' :: ('\n' :: (printFields d g gs ++
                      '\n' :: (indentChars d2 ++ cbrace :: rest))))))) := by
              rw [skipWs_ws_append indentChars_ws, skipWs_not_ws (by decide)]
            have hstr := parseStrChars_quote k.data fuel
              (':' :: (' ' :: (printVal d v ++
                ',' :: ('\n' :: (printFields d g gs ++
                  '\n' :: (indentChars d2 ++ cbrace :: rest)))))) hbk
            have hv : parseVal fuel (' ' :: (printVal d v ++
                ',' :: ('\n' :: (printFields d g gs ++
                  '\n' :: (indentChars d2 ++ cbrace :: rest))))) =
                some (v, ',' :: ('\n' :: (printFields d g gs ++
                  '\n' :: (indentChars d2 ++ cbrace :: rest)))) := by
              rw [parseVal_congr_ws fuel (skipWs_cons_ws (by decide) _)]
              exact ihV v d _ hbv rfl
            have hrec : parseFields fuel ('\n' :: (printFields d g gs ++
                '\n' :: (indentChars d2 ++ cbrace :: rest))) = some (g :: gs, rest) := by
              rw [parseFields_congr_ws fuel (skipWs_cons_ws (by decide) _)]
              exact ihF g gs d d2 rest hbg
            simp +decide only [hs1, if_true, if_false, hstr,
              skipWs_not_ws (show isJsonWs ':' = false from by decide), hv,
              skipWs_not_ws (show isJsonWs ',' = false from by decide), hrec]

/-! ### The printed text is long enough for the fuel `parseJson` supplies -/

theorem escapeChar_len (c : Char) : 1 ≤ (escapeChar c).length := by
  unfold escapeChar
  split_ifs <;> simp

theorem escFlatten_len (l : List Char) : l.length ≤ ((l.map escapeChar).flatten).length := by
  induction l with
  | nil => simp
  | cons c t ih =>
      have := escapeChar_len c
      simp only [List.map_cons, List.flatten_cons, List.length_append, List.length_cons]
      omega

theorem natPrint_len (n : Nat) : 1 ≤ (natPrint n).length := by
  obtain ⟨c, t, he, -, -⟩ := natPrint_head n
  rw [he]
  simp

theorem intPrint_len (n : Int) : 1 ≤ (intPrint n).length := by
  unfold intPrint
  split_ifs
  · simp
  · exact natPrint_len n.natAbs

theorem json_sizeOf_pos (v : Json) : 1 ≤ sizeOf v := by
  cases v <;> simp_arith

theorem quoteChars_len (s : String) :
    (quoteChars s).length = 2 + ((s.data.map escapeChar).flatten).length := by
  simp [quoteChars]
  omega

theorem fuelNeed_le_print : ∀ n : Nat,
    (∀ v d, sizeOf v ≤ n → fuelNeed v + 2 ≤ 3 * (printVal d v).length) ∧
    (∀ x xs d, 1 ≤ d → sizeOf x + sizeOf xs ≤ n →
      fuelItems x xs + 2 ≤ 3 * (printItems d x xs).length) ∧
    (∀ f fs d, 1 ≤ d → sizeOf f + sizeOf fs ≤ n →
      fuelFields f fs + 2 ≤ 3 * (printFields d f fs).length) := by
  intro n
  induction n using Nat.strong_induction_on with
  | _ n ih =>
      refine ⟨?_, ?_, ?_⟩
      · intro v d hs
        cases v with
        | null => simp [fuelNeed, printVal]
        | bool b => cases b <;> simp [fuelNeed, printVal]
        | num m =>
            have := intPrint_len m
            simp only [fuelNeed, printVal]
            omega
        | str s =>
            have := escFlatten_len s.data
            simp only [fuelNeed, printVal, quoteChars_len]
            omega
        | arr items =>
            cases items with
            | nil => simp [fuelNeed, printVal]
            | cons x xs =>
                have hsz : sizeOf x + sizeOf xs < n := by
                  have : sizeOf (Json.arr (x :: xs)) = 2 + sizeOf x + sizeOf xs := by
                    simp_arith
                  omega
                have hb := (ih (sizeOf x + sizeOf xs) hsz).2.1 x xs (d + 1) (by omega)
                  (Nat.le_refl _)
                simp only [fuelNeed, printVal, List.length_cons, List.length_append,
                  indentChars, List.length_replicate]
                omega
        | obj fields =>
            cases fields with
            | nil => simp [fuelNeed, printVal]
            | cons f fs =>
                have hsz : sizeOf f + sizeOf fs < n := by
                  have : sizeOf (Json.obj (f :: fs)) = 2 + sizeOf f + sizeOf fs := by
                    simp_arith
                  omega
                have hb := (ih (sizeOf f + sizeOf fs) hsz).2.2 f fs (d + 1) (by omega)
                  (Nat.le_refl _)
                simp only [fuelNeed, printVal, List.length_cons, List.length_append,
                  indentChars, List.length_replicate]
                omega
      · intro x xs d hd hs
        cases xs with
        | nil =>
            have hx : sizeOf x < n := by
              have : (1 : Nat) ≤ sizeOf ([] : List Json) := by simp_arith
              omega
            have hb := (ih (sizeOf x) hx).1 x d (Nat.le_refl _)
            simp only [fuelItems, printItems, List.length_append, indentChars,
              List.length_replicate]
            omega
        | cons y ys =>
            have hx : sizeOf x < n := by
              have : (1 : Nat) ≤ sizeOf (y :: ys) := by
                have := json_sizeOf_pos y
                simp_arith
              omega
            have hyys : sizeOf y + sizeOf ys < n := by
              have hxp := json_sizeOf_pos x
              have : sizeOf (y :: ys) = 1 + sizeOf y + sizeOf ys := by simp_arith
              omega
            have hbx := (ih (sizeOf x) hx).1 x d (Nat.le_refl _)
            have hby := (ih (sizeOf y + sizeOf ys) hyys).2.1 y ys d hd (Nat.le_refl _)
            simp only [fuelItems, printItems, List.length_append, List.length_cons,
              indentChars, List.length_replicate]
            omega
      · intro f fs d hd hs
        obtain ⟨k, v⟩ := f
        cases fs with
        | nil =>
            have hv : sizeOf v < n := by
              have : sizeOf ((k, v) : String × Json) = 1 + sizeOf k + sizeOf v := by
                simp_arith
              have : (1 : Nat) ≤ sizeOf k := by
                cases k
                simp_arith
              omega
            have hb := (ih (sizeOf v) hv).1 v d (Nat.le_refl _)
            have hk := escFlatten_len k.data
            simp only [fuelFields, printFields, List.length_append, List.length_cons,
              indentChars, List.length_replicate, quoteChars_len]
            have hkd : sizeOf k = 1 + sizeOf k.data := by
              cases k
              simp_arith
            have hdata : k.data.length ≤ sizeOf k.data := by
              induction k.data with
              | nil => simp_arith
              | cons c cs ihc => simp_arith; omega
            omega
        | cons g gs =>
            have hkpos : (1 : Nat) ≤ sizeOf k := by
              cases k
              simp_arith
            have hgpos : (1 : Nat) ≤ sizeOf g + sizeOf gs := by
              obtain ⟨gk, gv⟩ := g
              simp_arith
            have hv : sizeOf v < n := by
              have : sizeOf ((k, v) : String × Json) = 1 + sizeOf k + sizeOf v := by
                simp_arith
              have : (1 : Nat) ≤ sizeOf (g :: gs) := by simp_arith
              omega
            have hg : sizeOf g + sizeOf gs < n := by
              have h1 : sizeOf ((k, v) : String × Json) = 1 + sizeOf k + sizeOf v := by
                simp_arith
              have h2 : sizeOf (g :: gs) = 1 + sizeOf g + sizeOf gs := by simp_arith
              have := json_sizeOf_pos v
              omega
            have hbv := (ih (sizeOf v) hv).1 v d (Nat.le_refl _)
            have hbg := (ih (sizeOf g + sizeOf gs) hg).2.2 g gs d hd (Nat.le_refl _)
            have hk := escFlatten_len k.data
            simp only [fuelFields, printFields, List.length_append, List.length_cons,
              indentChars, List.length_replicate, quoteChars_len]
            have hkd : sizeOf k = 1 + sizeOf k.data := by
              cases k
              simp_arith
            have hdata : k.data.length ≤ sizeOf k.data := by
              induction k.data with
              | nil => simp_arith
              | cons c cs ihc => simp_arith; omega
            omega

/-! ### The round trip -/

/-- What `JSON.parse` reads back from `JSON.stringify(v, null, 2)` is `v`
itself. -/
theorem parseJson_stringify (v : Json) : parseJson (jsonStringify v) = some v := by
  have hlen : (jsonStringify v).length = (printVal 0 v).length := rfl
  have hdata : (jsonStringify v).data = printVal 0 v := rfl
  have hfuel : fuelNeed v ≤ 3 * (printVal 0 v).length + 3 := by
    have := (fuelNeed_le_print (sizeOf v)).1 v 0 (Nat.le_refl _)
    omega
  have hmain := (parsePrint (3 * (printVal 0 v).length + 3)).1 v 0 [] hfuel rfl
  rw [List.append_nil] at hmain
  unfold parseJson
  rw [hlen, hdata, hmain]
  rfl

/-! ## The server

What follows embeds `suno_callback.js` itself: the store (`readDb` /
`writeDb`), the auth guard (`checkAuth`), the ingest route
(`POST /suno/callback`), the by-id query route (`GET /callbacks/:id`) and
the dashboard (`GET /`).  The backing file is `Option String` (`none` is a
missing or unreadable file); thrown `TypeError`s are `Except.error`. -/

/-- An HTTP response body: `res.json(...)` or `res.send(html)`. -/
inductive RespBody where
  | json (j : Json) : RespBody
  | html (s : String) : RespBody

/-- An HTTP response as the handlers produce it. -/
structure HttpResponse where
  status : Nat
  body : RespBody

/-- The response `res.json({ code: 200, msg: 'ok' })`. -/
def respOk : HttpResponse :=
  ⟨200, .json (.obj [("code", .num 200), ("msg", .str "ok")])⟩

/-- The response `res.status(401).json({ code: 401, msg: 'Unauthorized: invalid or missing token' })`. -/
def resp401 : HttpResponse :=
  ⟨401, .json (.obj [("code", .num 401),
    ("msg", .str "Unauthorized: invalid or missing token")])⟩

/-- The response `res.status(404).json({ code: 404, msg: 'not found' })`. -/
def resp404 : HttpResponse :=
  ⟨404, .json (.obj [("code", .num 404), ("msg", .str "not found")])⟩

/-- The response `res.json({ code: 200, msg: 'ok', data })`. -/
def respData (data : Json) : HttpResponse :=
  ⟨200, .json (.obj [("code", .num 200), ("msg", .str "ok"), ("data", data)])⟩

/-- The parts of an Express request the server reads.  `queryToken` is
`req.query?.token`, `authHeader` is `req.headers['authorization']`,
`body` is `req.body` after the JSON / url-encoded middleware (`none` when
the middleware left it undefined). -/
structure Request where
  queryToken : Option String
  authHeader : Option String
  xForwardedFor : Option String
  userAgent : Option String
  remoteAddress : Option String
  body : Option Json

/-! ### Store -/

/-- The document `initDb` creates: `{ callbacks: [] }`. -/
def emptyDbJson : Json := .obj [("callbacks", .arr [])]

/-- Model of `readDb`: read and `JSON.parse` the backing file; any read or parse
failure is caught and yields `{ callbacks: [] }`.  The function is total:
no error escapes to the caller. -/
def readDb : Option String → Json
  | none => emptyDbJson
  | some raw =>
      match parseJson raw with
      | some j => j
      | none => emptyDbJson

/-- Model of `writeDb(data)`: the new file contents,
`JSON.stringify(data, null, 2)`. -/
def writeDb (data : Json) : String := jsonStringify data

/-! ### JavaScript value helpers -/

/-- Assoc-list lookup for object fields (JavaScript objects cannot carry a
key twice, so the first hit is the field). -/
def lookupField : List (String × Json) → String → Option Json
  | [], _ => none
  | (k2, v) :: t, k => if k2 = k then some v else lookupField t k

/-- Property access `j.k` on a non-null value: a field of an object, and
`undefined` (here `none`) on anything else — JavaScript boxes primitives,
whose property access yields `undefined`. -/
def getField : Json → String → Option Json
  | .obj fs, k => lookupField fs k
  | _, _ => none

/-- Property assignment `obj.k = v`: an existing key keeps its position,
a new key is appended, as JavaScript property order has it. -/
def setField : List (String × Json) → String → Json → List (String × Json)
  | [], k, v => [(k, v)]
  | (k2, v2) :: t, k, v =>
      if k2 = k then (k2, v) :: t else (k2, v2) :: setField t k v

/-- JavaScript truthiness of a JSON value: `null`, `false`, `0` and the
empty string are falsy, every array and object is truthy. -/
def jsTruthy : Json → Bool
  | .null => false
  | .bool b => b
  | .num n => n != 0
  | .str s => s != ""
  | .arr _ => true
  | .obj _ => true

/-- Truthiness of a possibly-`undefined` value. -/
def jsTruthyOpt : Option Json → Bool
  | none => false
  | some v => jsTruthy v

/-- JavaScript `a || b` on possibly-`undefined` values. -/
def jsOr (a b : Option Json) : Option Json :=
  if jsTruthyOpt a then a else b

/-- One optional-chaining step `x?.k`: short-circuits on `undefined` and
`null`. -/
def optChain (o : Option Json) (k : String) : Option Json :=
  match o with
  | none => none
  | some .null => none
  | some j => getField j k

/-- The chain `c.k1?.k2?....`: the first access is plain (the handlers apply it to a
record that is not `null`), the rest use `?.`. -/
def chainGet (c : Json) : List String → Option Json
  | [] => some c
  | k :: ks => ks.foldl optChain (getField c k)

mutual

/-- JavaScript string coercion, as a template literal `${v}` renders a
value. -/
def jsToString : Json → String
  | .null => "null"
  | .bool true => "true"
  | .bool false => "false"
  | .num n => intToString n
  | .str s => s
  | .arr xs => jsArrElems xs
  | .obj _ => "[object Object]"
termination_by v => 2 * sizeOf v
decreasing_by all_goals (simp_wf <;> omega)

/-- Model of `Array.prototype.toString`: elements joined with commas, `null`
rendering as the empty string. -/
def jsArrElems : List Json → String
  | [] => ""
  | [x] => jsElem x
  | x :: xs => jsElem x ++ "," ++ jsArrElems xs
termination_by xs => 2 * sizeOf xs + 1
decreasing_by all_goals (simp_wf <;> omega)

/-- One array element under `Array.prototype.toString`. -/
def jsElem : Json → String
  | .null => ""
  | v => jsToString v
termination_by v => 2 * sizeOf v + 1
decreasing_by all_goals (simp_wf <;> omega)

end

/-- Template-literal rendering of a possibly-`undefined` value. -/
def jsDisplay : Option Json → String
  | none => "undefined"
  | some v => jsToString v

/-! ### Auth guard -/

/-- The characters JavaScript regular expressions match with `\s` (and
`String.prototype.trim` strips). -/
def isJsWs (c : Char) : Bool :=
  c.toNat = 9 || c.toNat = 10 || c.toNat = 11 || c.toNat = 12 || c.toNat = 13 ||
  c.toNat = 32 || c.toNat = 160 || c.toNat = 0x1680 ||
  (0x2000 ≤ c.toNat && c.toNat ≤ 0x200a) ||
  c.toNat = 0x2028 || c.toNat = 0x2029 || c.toNat = 0x202f || c.toNat = 0x205f ||
  c.toNat = 0x3000 || c.toNat = 0xfeff

/-- ASCII lower-casing, as the `i` flag folds `Bearer`. -/
def lowerAscii (c : Char) : Char :=
  if 65 ≤ c.toNat && c.toNat ≤ 90 then Char.ofNat (c.toNat + 32) else c

/-- Try to match the regular expression `Bearer\s+` (case-insensitive) at
the head of the input; on success return what follows the (greedy)
whitespace run. -/
def matchBearerAt : List Char → Option (List Char)
  | b :: e :: a :: r :: e2 :: r2 :: w :: rest =>
      if lowerAscii b = 'b' && lowerAscii e = 'e' && lowerAscii a = 'a' &&
          lowerAscii r = 'r' && lowerAscii e2 = 'e' && lowerAscii r2 = 'r' &&
          isJsWs w then
        some (rest.dropWhile isJsWs)
      else none
  | _ => none

/-- Model of `String.prototype.replace(/Bearer\s+/i, '')`: remove the first
(leftmost) match anywhere in the string. -/
def replaceBearer : List Char → List Char
  | [] => []
  | c :: cs =>
      match matchBearerAt (c :: cs) with
      | some rest => rest
      | none => c :: replaceBearer cs

/-- Model of `String.prototype.trim()`. -/
def jsTrim (l : List Char) : List Char :=
  ((l.dropWhile isJsWs).reverse.dropWhile isJsWs).reverse

/-- Model of `checkAuth`: `none` is `next()` (the request passes), `some r` is the
401 response.  When `AUTH_TOKEN` is empty no auth is required; otherwise
the query token must be truthy and equal to the secret, or the
`Authorization` header — after `replace(/Bearer\s+/i, '')` and `trim()` —
must be truthy and equal to the secret. -/
def checkAuth (authToken : String) (req : Request) : Option HttpResponse :=
  if authToken = "" then none
  else
    let q := req.queryToken.getD ""
    let h := String.mk (jsTrim (replaceBearer ((req.authHeader.getD "").data)))
    if q ≠ "" ∧ q = authToken then none
    else if h ≠ "" ∧ h = authToken then none
    else some resp401

/-! ### Ingest: `POST /suno/callback` -/

/-- The nondeterministic inputs the handler draws from the environment:
`Date.now()`, the random id suffix, and `new Date().toISOString()`. -/
structure IngestInput where
  nowMs : Nat
  randSuffix : String
  nowIso : String
  req : Request

/-- JavaScript `h || fallback` for a header value (an absent header is `undefined`,
an empty header is falsy). -/
def headerOr (h : Option String) (fb : Json) : Json :=
  match h with
  | some s => if s != "" then .str s else fb
  | none => fb

/-- The record the ingest handler builds (source lines 75–85). -/
def buildRecord (inp : IngestInput) : Json :=
  let payload : Json :=
    match inp.req.body with
    | some b => if jsTruthy b then b else .obj []
    | none => .obj []
  .obj [
    ("id", .str (natToString inp.nowMs ++ "_" ++ inp.randSuffix)),
    ("receivedAt", .str inp.nowIso),
    ("ip", headerOr inp.req.xForwardedFor (headerOr inp.req.remoteAddress .null)),
    ("userAgent", headerOr inp.req.userAgent .null),
    ("payload", payload)]

/-- Route `POST /suno/callback`: auth check, build the record, read the store,
`unshift` the record, keep the first 500, write back, answer
`{code:200, msg:'ok'}`.  `Except.error` is a thrown `TypeError`: the read
document is not an object carrying a `callbacks` array, so
`db.callbacks.unshift` fails. -/
def postSunoCallback (authToken : String) (inp : IngestInput) (file : Option String) :
    Except String (Option String × HttpResponse) :=
  match checkAuth authToken inp.req with
  | some resp => .ok (file, resp)
  | none =>
      let record := buildRecord inp
      let db := readDb file
      match db with
      | .obj fs =>
          match lookupField fs "callbacks" with
          | some (.arr cbs) =>
              let newCbs := (record :: cbs).take 500
              let db2 := Json.obj (setField fs "callbacks" (.arr newCbs))
              .ok (some (writeDb db2), respOk)
          | some _ => .error "TypeError: db.callbacks.unshift is not a function"
          | none => .error "TypeError: cannot read properties of undefined"
      | _ => .error "TypeError: cannot read properties of the parsed document"

/-! ### Query: `GET /callbacks/:id` -/

/-- The predicate `c.id === req.params.id`: strict equality of `c.id`
against the id string is true exactly when `c` carries a string `id` field
with the same contents. -/
def idMatches (c : Json) (idParam : String) : Bool :=
  match getField c "id" with
  | some (.str s) => s = idParam
  | _ => false

/-- Model of `db.callbacks.find((c) => c.id === req.params.id)`: linear search; a
`null` element makes the callback throw. -/
def findById (idParam : String) : List Json → Except String (Option Json)
  | [] => .ok none
  | .null :: _ => .error "TypeError: cannot read properties of null"
  | c :: cs =>
      if idMatches c idParam then .ok (some c)
      else findById idParam cs

/-- Route `GET /callbacks/:id`: auth check, read the store, linear search by id,
404 when absent, else the record. -/
def getCallbackById (authToken : String) (req : Request) (idParam : String)
    (file : Option String) : Except String HttpResponse :=
  match checkAuth authToken req with
  | some resp => .ok resp
  | none =>
      let db := readDb file
      match getField db "callbacks" with
      | some (.arr cbs) =>
          match findById idParam cbs with
          | .ok none => .ok resp404
          | .ok (some c) => .ok (respData c)
          | .error e => .error e
      | _ => .error "TypeError: db.callbacks.find is not a function"

/-! ### Dashboard: `GET /` -/

/-- The `status` display value of a record:
`c.payload?.data?.status || c.payload?.data?.response?.status || c.payload?.msg || 'unknown'`. -/
def rowStatus (c : Json) : Option Json :=
  jsOr (jsOr (jsOr (chainGet c ["payload", "data", "status"])
    (chainGet c ["payload", "data", "response", "status"]))
    (chainGet c ["payload", "msg"]))
    (some (.str "unknown"))

/-- The `taskId` display value of a record (the fallback is the literal of
the source file). -/
def rowTaskId (c : Json) : Option Json :=
  jsOr (jsOr (jsOr (chainGet c ["payload", "data", "taskId"])
    (chainGet c ["payload", "taskId"]))
    (chainGet c ["payload", "data", "videoTaskId"]))
    (some (.str "‚Äî"))

/-- The `downloadUrl` display value of a record. -/
def rowDownloadUrl (c : Json) : Option Json :=
  jsOr (jsOr (jsOr (jsOr (jsOr (jsOr (chainGet c ["payload", "data", "downloadUrl"])
    (chainGet c ["payload", "data", "mp4Url"]))
    (chainGet c ["payload", "data", "url"]))
    (chainGet c ["payload", "data", "fileUrl"]))
    (chainGet c ["payload", "data", "videoUrl"]))
    (chainGet c ["payload", "data", "response", "downloadUrl"]))
    (some (.str ""))

/-- One `<tr>` of the dashboard table, interpolating the record fields
verbatim (no HTML escaping). -/
def rowOf (c : Json) : String :=
  "<tr>\n      <td style=\"font-family:monospace\">" ++ jsDisplay (getField c "id") ++
    "</td>\n      <td>" ++ jsDisplay (getField c "receivedAt") ++
    "</td>\n      <td>" ++ jsDisplay (rowStatus c) ++
    "</td>\n      <td style=\"font-family:monospace\">" ++ jsDisplay (rowTaskId c) ++
    "</td>\n      <td>" ++
    (if jsTruthyOpt (rowDownloadUrl c) then
      "<a href=\"" ++ jsDisplay (rowDownloadUrl c) ++ "\" target=\"_blank\">download</a>"
    else "‚Äî") ++
    "</td>\n    </tr>"

/-- Model of `Array.prototype.join(sep)`: the empty list joins to the empty string,
otherwise the elements separated by `sep`. -/
def joinSep (sep : String) : List String → String
  | [] => ""
  | [a] => a
  | a :: as => a ++ sep ++ joinSep sep as

/-- Map `rowOf` over the displayed records; a `null` record makes the
callback throw at `c.id`. -/
def rowsOf : List Json → Except String (List String)
  | [] => .ok []
  | .null :: _ => .error "TypeError: cannot read properties of null"
  | c :: t =>
      match rowsOf t with
      | .ok rs => .ok (rowOf c :: rs)
      | .error e => .error e

/-- The static HTML before the table rows. -/
def dashboardPre : String :=
  "\n<!doctype html>\n<html>\n<head>\n  <meta charset=\"utf-8\" />\n" ++
  "  <meta name=\"viewport\" content=\"width=device-width,initial-scale=1\" />\n" ++
  "  <title>Suno Callback Dashboard</title>\n  <style>\n" ++
  "    body \x7b font-family: system-ui, -apple-system, Segoe UI, Roboto, Arial; margin: 24px; \x7d\n" ++
  "    table \x7b border-collapse: collapse; width: 100%; \x7d\n" ++
  "    th, td \x7b border: 1px solid #e5e7eb; padding: 8px 10px; text-align: left; \x7d\n" ++
  "    th \x7b background: #f3f4f6; \x7d\n" ++
  "    tr:nth-child(even) \x7b background: #fafafa; \x7d\n" ++
  "    code \x7b background: #f3f4f6; padding: 2px 4px; border-radius: 4px; \x7d\n" ++
  "  </style>\n</head>\n<body>\n  <h1>üîî Suno Callback Dashboard</h1>\n" ++
  "  <p>Latest callbacks (max 50). Protect the endpoint with <code>AUTH_TOKEN</code> " ++
  "in your <code>.env</code>, e.g. use <code>?token=YOUR_TOKEN</code>.</p>\n\n" ++
  "  <h3>Endpoints</h3>\n  <ul>\n" ++
  "    <li><code>POST /suno/callback?token=YOUR_TOKEN</code></li>\n" ++
  "    <li><code>GET /callbacks?token=YOUR_TOKEN</code></li>\n" ++
  "    <li><code>GET /callbacks/:id?token=YOUR_TOKEN</code></li>\n  </ul>\n\n" ++
  "  <h3>Recent</h3>\n  <table>\n    <thead>\n      <tr>\n        <th>ID</th>\n" ++
  "        <th>Received</th>\n        <th>Status</th>\n        <th>TaskID</th>\n" ++
  "        <th>Video</th>\n      </tr>\n    </thead>\n    <tbody>\n      "

/-- The static HTML after the table rows. -/
def dashboardPost : String :=
  "\n    </tbody>\n  </table>\n</body>\n</html>\n  "

/-- The rendered page: `${rows || '<tr><td colspan="5">No data</td></tr>'}`
between the static parts (an empty rows string is falsy). -/
def dashboardHtmlDoc (rows : String) : String :=
  dashboardPre ++
    (if rows = "" then "<tr><td colspan=\"5\">No data</td></tr>" else rows) ++
    dashboardPost

/-- Route `GET /` — registered without `checkAuth`: the auth token and request
credentials are parameters the handler never consults.  Reads the store,
takes the first 50 records, renders them.  `Except.error` is a thrown
`TypeError` (stored document without a usable `callbacks` array, or a
`null` record). -/
def dashboardRoute (authToken : String) (req : Request) (file : Option String) :
    Except String HttpResponse :=
  let db := readDb file
  match getField db "callbacks" with
  | some (.arr cbs) =>
      match rowsOf (cbs.take 50) with
      | .ok rows => .ok ⟨200, .html (dashboardHtmlDoc (joinSep "\n" rows))⟩
      | .error e => .error e
  | _ => .error "TypeError: db.callbacks.slice is not usable"

/-! ### Helper lemmas about the server -/

theorem lookupField_setField (fs : List (String × Json)) (k : String) (v : Json) :
    lookupField (setField fs k v) k = some v := by
  induction fs with
  | nil => simp [setField, lookupField]
  | cons p t ih =>
      obtain ⟨k2, v2⟩ := p
      by_cases h : k2 = k
      · simp [setField, lookupField, h]
      · simp [setField, lookupField, h, ih]

theorem findById_no_null (idParam : String) (cbs : List Json) (h : Json.null ∉ cbs) :
    findById idParam cbs = .ok (cbs.find? (fun c => idMatches c idParam)) := by
  induction cbs with
  | nil => rfl
  | cons c t ih =>
      have hc : c ≠ Json.null := fun e => h (by rw [e]; exact List.mem_cons_self _ _)
      have ht : Json.null ∉ t := fun e => h (List.mem_cons_of_mem _ e)
      cases c with
      | null => exact absurd rfl hc
      | bool b => by_cases hm : idMatches (.bool b) idParam <;>
          simp [findById, List.find?, hm, ih ht]
      | num n => by_cases hm : idMatches (.num n) idParam <;>
          simp [findById, List.find?, hm, ih ht]
      | str s => by_cases hm : idMatches (.str s) idParam <;>
          simp [findById, List.find?, hm, ih ht]
      | arr xs => by_cases hm : idMatches (.arr xs) idParam <;>
          simp [findById, List.find?, hm, ih ht]
      | obj fs => by_cases hm : idMatches (.obj fs) idParam <;>
          simp [findById, List.find?, hm, ih ht]

theorem rowsOf_no_null (l : List Json) (h : Json.null ∉ l) :
    rowsOf l = .ok (l.map rowOf) := by
  induction l with
  | nil => rfl
  | cons c t ih =>
      have hc : c ≠ Json.null := fun e => h (by rw [e]; exact List.mem_cons_self _ _)
      have ht : Json.null ∉ t := fun e => h (List.mem_cons_of_mem _ e)
      cases c with
      | null => exact absurd rfl hc
      | bool b => simp [rowsOf, ih ht]
      | num n => simp [rowsOf, ih ht]
      | str s => simp [rowsOf, ih ht]
      | arr xs => simp [rowsOf, ih ht]
      | obj fs => simp [rowsOf, ih ht]

theorem jsToString_str (s : String) : jsToString (.str s) = s := by
  simp [jsToString]

/-- The dashboard handler on a well-formed store: status 200, the rows of
the first 50 records. -/
theorem dashboardRoute_ok (authToken : String) (req : Request) (file : Option String)
    (cbs : List Json) (hcbs : getField (readDb file) "callbacks" = some (.arr cbs))
    (hnn : Json.null ∉ cbs) :
    dashboardRoute authToken req file =
      .ok ⟨200, .html (dashboardHtmlDoc (joinSep "\n" ((cbs.take 50).map rowOf)))⟩ := by
  have hnn50 : Json.null ∉ cbs.take 50 := fun e => hnn (List.take_subset _ _ e)
  simp only [dashboardRoute, hcbs, rowsOf_no_null _ hnn50]

theorem joinSep_split (sep : String) :
    ∀ (l : List String) (x : String), x ∈ l → ∃ p q, joinSep sep l = p ++ (x ++ q) := by
  intro l
  induction l with
  | nil => intro x hx; exact absurd hx (List.not_mem_nil x)
  | cons a t ih =>
      intro x hx
      rcases List.mem_cons.mp hx with rfl | hx
      · cases t with
        | nil => exact ⟨"", "", by simp [joinSep]⟩
        | cons b bs =>
            refine ⟨"", sep ++ joinSep sep (b :: bs), ?_⟩
            simp [joinSep, String.append_assoc]
      · cases t with
        | nil => exact absurd hx (List.not_mem_nil x)
        | cons b bs =>
            obtain ⟨p, q, hpq⟩ := ih x hx
            refine ⟨a ++ sep ++ p, q, ?_⟩
            simp [joinSep, hpq, String.append_assoc]

/-! ## The claims -/

/-- Reading back a just-written document yields that document. -/
theorem readDb_writeDb (doc : Json) : readDb (some (writeDb doc)) = doc := by
  show (match parseJson (jsonStringify doc) with
    | some j => j
    | none => emptyDbJson) = doc
  rw [parseJson_stringify]

/-- C7: for every store document, writing it with `writeDb` and then
calling `readDb` yields an equal document — the same records in the same
order, every payload unchanged through JSON serialization. -/
theorem C7_write_read_roundtrip (doc : Json) : readDb (some (writeDb doc)) = doc :=
  readDb_writeDb doc

/-- C5: for every backing-file state, `readDb` either returns the parsed
document or, on any read or parse failure, the empty document
`{callbacks: []}`; being a total function into `Json`, it never raises. -/
theorem C5_read_degrades_silently (file : Option String) :
    (∃ raw, file = some raw ∧ parseJson raw = some (readDb file)) ∨
      readDb file = Json.obj [("callbacks", Json.arr [])] := by
  cases file with
  | none => exact Or.inr rfl
  | some raw =>
      cases h : parseJson raw with
      | none => exact Or.inr (by simp [readDb, h, emptyDbJson])
      | some j => exact Or.inl ⟨raw, rfl, by simp [readDb, h]⟩

/-- A request carrying nothing at all. -/
def nullReq : Request := ⟨none, none, none, none, none, none⟩

/-- A fixed ingest environment for concrete evaluations. -/
def sampleIngest : IngestInput :=
  ⟨1700000000000, "ab12cd", "2026-10-12T00:00:00.000Z", nullReq⟩

/-- C9: `readDb`'s silent degradation covers only thrown errors, not
shape: the backing content `{}` is valid JSON but no document with a
`callbacks` array; `readDb` returns it as-is rather than `{callbacks: []}`,
and the append step of `POST /suno/callback` then throws instead of
degrading. -/
theorem C9_shape_gap :
    parseJson "\x7b\x7d" = some (Json.obj []) ∧
    readDb (some "\x7b\x7d") = Json.obj [] ∧
    Json.obj [] ≠ emptyDbJson ∧
    (∃ e, postSunoCallback "" sampleIngest (some "\x7b\x7d") = Except.error e) := by
  refine ⟨rfl, rfl, ?_, ⟨_, rfl⟩⟩
  intro h
  injection h with h2
  nomatch h2

/-- Modelled from the claim's words, not the source: pass when the header,
stripped of one leading case-insensitive `Bearer` prefix and
whitespace-trimmed, equals the secret. -/
def claimStripBearer (l : List Char) : List Char :=
  match l with
  | b :: e :: a :: r :: e2 :: r2 :: rest =>
      if lowerAscii b = 'b' && lowerAscii e = 'e' && lowerAscii a = 'a' &&
          lowerAscii r = 'r' && lowerAscii e2 = 'e' && lowerAscii r2 = 'r' then rest
      else l
  | _ => l

/-- The claim's reading of the header check. -/
def claimHeaderPass (secret header : String) : Bool :=
  String.mk (jsTrim (claimStripBearer header.data)) = secret

/-- C1 counterexample: the header `Bearersecret` (a leading `Bearer`
prefix with no whitespace after it) passes under the claim's description,
but the code — whose regular expression `/Bearer\s+/i` demands whitespace
after `Bearer` — rejects the request with 401. -/
theorem C1_counterexample :
    claimHeaderPass "secret" "Bearersecret" = true ∧
    checkAuth "secret" ⟨none, some "Bearersecret", none, none, none, none⟩ =
      some resp401 :=
  ⟨rfl, rfl⟩

/-- C1 amended: with no token configured every request passes; with a
token, a request passes iff the query `token` equals the secret or the
`Authorization` header — after removing the first case-insensitive
occurrence of `Bearer` followed by whitespace, anywhere in the header, and
trimming — equals the secret; every other request gets the structured 401
response. -/
theorem C1_auth_guard (authToken : String) (req : Request) :
    (authToken = "" → checkAuth authToken req = none) ∧
    (authToken ≠ "" →
      ((checkAuth authToken req = none ↔
          req.queryToken = some authToken ∨
          String.mk (jsTrim (replaceBearer ((req.authHeader.getD "").data))) = authToken) ∧
        (∀ r, checkAuth authToken req = some r → r = resp401))) := by
  constructor
  · intro h
    simp [checkAuth, h]
  · intro h
    simp only [checkAuth, if_neg h]
    by_cases h1 : req.queryToken.getD "" ≠ "" ∧ req.queryToken.getD "" = authToken
    · rw [if_pos h1]
      refine ⟨⟨fun _ => ?_, fun _ => rfl⟩, fun r hr => by cases hr⟩
      obtain ⟨h1a, h1b⟩ := h1
      cases hqt : req.queryToken with
      | none =>
          rw [hqt] at h1b
          exact absurd h1b.symm h
      | some s =>
          rw [hqt] at h1b
          simp only [Option.getD_some] at h1b
          exact Or.inl (by rw [h1b])
    · rw [if_neg h1]
      by_cases h2 : String.mk (jsTrim (replaceBearer ((req.authHeader.getD "").data))) ≠ "" ∧
          String.mk (jsTrim (replaceBearer ((req.authHeader.getD "").data))) = authToken
      · rw [if_pos h2]
        exact ⟨⟨fun _ => Or.inr h2.2, fun _ => rfl⟩, fun r hr => by cases hr⟩
      · rw [if_neg h2]
        constructor
        · constructor
          · intro habs
            exact absurd habs (by simp)
          · intro hor
            rcases hor with hq | hh
            · exact absurd ⟨by rw [hq]; simpa using h, by rw [hq]; rfl⟩ h1
            · exact absurd ⟨by rw [hh]; exact h, hh⟩ h2
        · intro r hr
          injection hr with h3
          exact h3.symm

/-- C1 witness: with token `s` configured and a matching query token the
guard passes. -/
theorem C1_auth_guard_witness :
    checkAuth "s" ⟨some "s", none, none, none, none, none⟩ = none :=
  (((C1_auth_guard "s" ⟨some "s", none, none, none, none, none⟩).2
    (by decide)).1).mpr (Or.inl rfl)

/-- C2: after every append the stored callbacks list has length at most
500; when the list already holds exactly 500 records the new record sits at
the front and the oldest (last) record is evicted. -/
theorem C2_capacity (authToken : String) (inp : IngestInput) (file : Option String)
    (fs : List (String × Json)) (cbs : List Json)
    (hauth : checkAuth authToken inp.req = none)
    (hdb : readDb file = .obj fs)
    (hcbs : lookupField fs "callbacks" = some (.arr cbs)) :
    ∃ newFile,
      postSunoCallback authToken inp file = .ok (some newFile, respOk) ∧
      ∃ newCbs,
        parseJson newFile = some (.obj (setField fs "callbacks" (.arr newCbs))) ∧
        lookupField (setField fs "callbacks" (.arr newCbs)) "callbacks" =
          some (.arr newCbs) ∧
        newCbs = (buildRecord inp :: cbs).take 500 ∧
        newCbs.length ≤ 500 ∧
        (cbs.length = 500 → newCbs = buildRecord inp :: cbs.dropLast) := by
  refine ⟨writeDb (.obj (setField fs "callbacks"
      (.arr ((buildRecord inp :: cbs).take 500)))), ?_,
    (buildRecord inp :: cbs).take 500, ?_, ?_, rfl, ?_, ?_⟩
  · simp only [postSunoCallback, hauth, hdb, hcbs]
  · exact parseJson_stringify _
  · exact lookupField_setField fs "callbacks" _
  · exact List.length_take_le 500 _
  · intro h500
    have : (500 : Nat) = 499 + 1 := rfl
    rw [this, List.take_succ_cons]
    congr 1
    rw [List.dropLast_eq_take, h500]

/-- C3: an accepted `POST /suno/callback` on a store holding fewer than 500
records answers exactly `{code:200, msg:"ok"}` and the stored list grows by
exactly one, the new record prepended at the front. -/
theorem C3_ingest (authToken : String) (inp : IngestInput) (file : Option String)
    (fs : List (String × Json)) (cbs : List Json)
    (hauth : checkAuth authToken inp.req = none)
    (hdb : readDb file = .obj fs)
    (hcbs : lookupField fs "callbacks" = some (.arr cbs))
    (hlen : cbs.length < 500) :
    ∃ newFile,
      postSunoCallback authToken inp file = .ok (some newFile, respOk) ∧
      respOk.body = .json (.obj [("code", .num 200), ("msg", .str "ok")]) ∧
      ∃ fs2,
        parseJson newFile = some (.obj fs2) ∧
        lookupField fs2 "callbacks" = some (.arr (buildRecord inp :: cbs)) ∧
        (buildRecord inp :: cbs).length = cbs.length + 1 := by
  have htake : (buildRecord inp :: cbs).take 500 = buildRecord inp :: cbs :=
    List.take_of_length_le (by simp; omega)
  refine ⟨writeDb (.obj (setField fs "callbacks"
      (.arr ((buildRecord inp :: cbs).take 500)))), ?_, rfl,
    setField fs "callbacks" (.arr ((buildRecord inp :: cbs).take 500)), ?_, ?_, by simp⟩
  · simp only [postSunoCallback, hauth, hdb, hcbs]
  · exact parseJson_stringify _
  · rw [lookupField_setField, htake]

/-- C4: `GET /callbacks/:id` on an authorized request performs a linear
search by exact id equality: 404 with `{code:404, msg:"not found"}` when no
record matches, else 200 with `{code:200, msg:"ok", data: record}` for the
matching record. -/
theorem C4_get_by_id (authToken : String) (req : Request) (idParam : String)
    (file : Option String) (cbs : List Json)
    (hauth : checkAuth authToken req = none)
    (hcbs : getField (readDb file) "callbacks" = some (.arr cbs))
    (hnn : Json.null ∉ cbs) :
    (cbs.find? (fun c => idMatches c idParam) = none →
      getCallbackById authToken req idParam file = .ok resp404) ∧
    (∀ c, cbs.find? (fun c => idMatches c idParam) = some c →
      getCallbackById authToken req idParam file = .ok (respData c)) := by
  have hfind := findById_no_null idParam cbs hnn
  constructor
  · intro hnone
    simp only [getCallbackById, hauth, hcbs, hfind, hnone]
  · intro c hc
    simp only [getCallbackById, hauth, hcbs, hfind, hc]

/-- C2 witness: appending to the empty store. -/
theorem C2_capacity_witness :
    ∃ newFile,
      postSunoCallback "" sampleIngest none = .ok (some newFile, respOk) ∧
      ∃ newCbs,
        parseJson newFile = some (.obj (setField [("callbacks", Json.arr [])]
          "callbacks" (.arr newCbs))) ∧
        lookupField (setField [("callbacks", Json.arr [])] "callbacks" (.arr newCbs))
          "callbacks" = some (.arr newCbs) ∧
        newCbs = (buildRecord sampleIngest :: []).take 500 ∧
        newCbs.length ≤ 500 ∧
        (([] : List Json).length = 500 →
          newCbs = buildRecord sampleIngest :: ([] : List Json).dropLast) :=
  C2_capacity "" sampleIngest none [("callbacks", Json.arr [])] [] rfl rfl rfl

/-- C3 witness: the same append, seen as a growth by one. -/
theorem C3_ingest_witness :
    ∃ newFile,
      postSunoCallback "" sampleIngest none = .ok (some newFile, respOk) ∧
      respOk.body = .json (.obj [("code", .num 200), ("msg", .str "ok")]) ∧
      ∃ fs2,
        parseJson newFile = some (.obj fs2) ∧
        lookupField fs2 "callbacks" = some (.arr (buildRecord sampleIngest :: [])) ∧
        (buildRecord sampleIngest :: ([] : List Json)).length = ([] : List Json).length + 1 :=
  C3_ingest "" sampleIngest none [("callbacks", Json.arr [])] [] rfl rfl rfl (by decide)

/-- C4 witness: an unknown id against the empty store is a 404. -/
theorem C4_get_by_id_witness :
    getCallbackById "" nullReq "nope" none = .ok resp404 :=
  (C4_get_by_id "" nullReq "nope" none [] rfl rfl (by simp)).1 rfl

/-- C6 counterexample: with an `x-forwarded-for` header that is present but
empty and a socket address `1.2.3.4`, the record's `ip` is `1.2.3.4` —
not the header value the claim (`ip equal to the x-forwarded-for header if
present`) prescribes, because `||` falls through on the falsy empty
string. -/
theorem C6_counterexample :
    (IngestInput.mk 1 "a" "t" ⟨none, none, some "", none, some "1.2.3.4", none⟩).req.xForwardedFor
        = some "" ∧
    getField (buildRecord ⟨1, "a", "t", ⟨none, none, some "", none, some "1.2.3.4", none⟩⟩)
        "ip" = some (.str "1.2.3.4") ∧
    ("1.2.3.4" : String) ≠ "" := by
  refine ⟨rfl, rfl, by decide⟩

/-- C6 amended: the constructed record has id `{epoch-millis}_{suffix}`,
receivedAt the ISO timestamp, ip the `x-forwarded-for` header if present
and non-empty, else the socket address if present and non-empty, else null;
userAgent the `user-agent` header if present and non-empty, else null; and
payload the parsed body when truthy, else `{}`. -/
theorem C6_record_fields (inp : IngestInput) :
    getField (buildRecord inp) "id" =
      some (.str (natToString inp.nowMs ++ "_" ++ inp.randSuffix)) ∧
    getField (buildRecord inp) "receivedAt" = some (.str inp.nowIso) ∧
    getField (buildRecord inp) "ip" = some (
      match inp.req.xForwardedFor with
      | some s =>
          if s ≠ "" then .str s
          else match inp.req.remoteAddress with
            | some s2 => if s2 ≠ "" then .str s2 else .null
            | none => .null
      | none =>
          match inp.req.remoteAddress with
          | some s2 => if s2 ≠ "" then .str s2 else .null
          | none => .null) ∧
    getField (buildRecord inp) "userAgent" = some (
      match inp.req.userAgent with
      | some s => if s ≠ "" then .str s else .null
      | none => .null) ∧
    getField (buildRecord inp) "payload" = some (
      match inp.req.body with
      | some b => if jsTruthy b then b else .obj []
      | none => .obj []) := by
  obtain ⟨ms, rs, iso, qt, ah, xff, ua, ra, body⟩ := inp
  refine ⟨rfl, rfl, ?_, ?_, ?_⟩
  · show some (headerOr xff (headerOr ra .null)) = _
    cases xff with
    | none =>
        cases ra with
        | none => rfl
        | some s2 =>
            by_cases h : s2 = "" <;> simp [headerOr, h]
    | some s =>
        by_cases h : s = ""
        · cases ra with
          | none => simp [headerOr, h]
          | some s2 =>
              by_cases h2 : s2 = "" <;> simp [headerOr, h, h2]
        · simp [headerOr, h]
  · show some (headerOr ua .null) = _
    cases ua with
    | none => rfl
    | some s => by_cases h : s = "" <;> simp [headerOr, h]
  · cases body with
    | none => rfl
    | some b => rfl

/-- C8: `GET /` is served without consulting any token — for every
configured `AUTH_TOKEN` and any request credentials it returns status 200
with the HTML page whose table rows are exactly the first 50 stored
records. -/
theorem C8_dashboard (authToken : String) (req : Request) (file : Option String)
    (cbs : List Json)
    (hcbs : getField (readDb file) "callbacks" = some (.arr cbs))
    (hnn : Json.null ∉ cbs) :
    (∀ req2 : Request, dashboardRoute authToken req2 file = dashboardRoute authToken req file) ∧
    dashboardRoute authToken req file =
      .ok ⟨200, .html (dashboardHtmlDoc (joinSep "\n" ((cbs.take 50).map rowOf)))⟩ ∧
    (cbs.take 50).length ≤ 50 :=
  ⟨fun _ => rfl, dashboardRoute_ok authToken req file cbs hcbs hnn,
    List.length_take_le 50 cbs⟩

/-- C8 witness: the empty store, with a token configured and no
credentials supplied. -/
theorem C8_dashboard_witness :
    dashboardRoute "secret" nullReq none =
      .ok ⟨200, .html (dashboardHtmlDoc (joinSep "\n"
        ((([] : List Json).take 50).map rowOf)))⟩ :=
  (C8_dashboard "secret" nullReq none [] rfl (by simp)).2.1

theorem string_data_ext {a b : String} (h : a.data = b.data) : a = b := by
  cases a
  cases b
  exact congrArg String.mk (by simpa using h)

/-- C10: the dashboard performs no HTML escaping — for every displayed
record whose id, receivedAt and payload-derived status, taskId and
downloadUrl are strings, each of them appears verbatim (as a raw substring)
in the rendered page, whatever markup it contains. -/
theorem C10_no_escaping (authToken : String) (req : Request) (file : Option String)
    (cbs : List Json) (c : Json) (i r st t u : String)
    (hcbs : getField (readDb file) "callbacks" = some (.arr cbs))
    (hnn : Json.null ∉ cbs)
    (hmem : c ∈ cbs.take 50)
    (hid : getField c "id" = some (.str i))
    (hrecv : getField c "receivedAt" = some (.str r))
    (hst : rowStatus c = some (.str st))
    (htask : rowTaskId c = some (.str t))
    (hurl : rowDownloadUrl c = some (.str u))
    (hu : u ≠ "") :
    ∃ html, dashboardRoute authToken req file = .ok ⟨200, .html html⟩ ∧
      (∃ p q, html = p ++ (i ++ q)) ∧ (∃ p q, html = p ++ (r ++ q)) ∧
      (∃ p q, html = p ++ (st ++ q)) ∧ (∃ p q, html = p ++ (t ++ q)) ∧
      (∃ p q, html = p ++ (u ++ q)) := by
  have hroute := dashboardRoute_ok authToken req file cbs hcbs hnn
  have hmemrow : rowOf c ∈ (cbs.take 50).map rowOf := List.mem_map_of_mem rowOf hmem
  obtain ⟨p0, q0, hsplit⟩ := joinSep_split "\n" _ (rowOf c) hmemrow
  have hturl : jsTruthyOpt (some (Json.str u)) = true := by
    simp [jsTruthyOpt, jsTruthy, hu]
  have hrow : rowOf c =
      "<tr>\n      <td style=\"font-family:monospace\">" ++ (i ++
      ("</td>\n      <td>" ++ (r ++
      ("</td>\n      <td>" ++ (st ++
      ("</td>\n      <td style=\"font-family:monospace\">" ++ (t ++
      ("</td>\n      <td>" ++ ("<a href=\"" ++ (u ++
      ("\" target=\"_blank\">download</a>" ++ "</td>\n    </tr>"))))))))))) := by
    simp only [rowOf, hid, hrecv, hst, htask, hurl, hturl, if_true, jsDisplay,
      jsToString_str]
    simp [String.append_assoc]
  have h0 : 0 < ("<tr>\n      <td style=\"font-family:monospace\">" : String).length := by
    decide
  have hlen : 0 < (rowOf c).length := by
    rw [hrow]
    simp only [String.length_append]
    omega
  have hne : joinSep "\n" ((cbs.take 50).map rowOf) ≠ "" := by
    rw [hsplit]
    intro habs
    have hl := congrArg String.length habs
    simp only [String.length_append] at hl
    have hz : ("" : String).length = 0 := rfl
    omega
  have hdoc : dashboardHtmlDoc (joinSep "\n" ((cbs.take 50).map rowOf)) =
      dashboardPre ++ joinSep "\n" ((cbs.take 50).map rowOf) ++ dashboardPost := by
    unfold dashboardHtmlDoc
    rw [if_neg hne]
  refine ⟨_, hroute, ?_, ?_, ?_, ?_, ?_⟩
  · refine ⟨dashboardPre ++ p0 ++ "<tr>\n      <td style=\"font-family:monospace\">",
      ("</td>\n      <td>" ++ (r ++
      ("</td>\n      <td>" ++ (st ++
      ("</td>\n      <td style=\"font-family:monospace\">" ++ (t ++
      ("</td>\n      <td>" ++ ("<a href=\"" ++ (u ++
      ("\" target=\"_blank\">download</a>" ++ "</td>\n    </tr>")))))))))) ++
      q0 ++ dashboardPost, ?_⟩
    apply string_data_ext
    rw [hdoc, hsplit, hrow]
    simp only [String.data_append, List.append_assoc]
  · refine ⟨dashboardPre ++ p0 ++
      ("<tr>\n      <td style=\"font-family:monospace\">" ++ (i ++
        "</td>\n      <td>")),
      ("</td>\n      <td>" ++ (st ++
      ("</td>\n      <td style=\"font-family:monospace\">" ++ (t ++
      ("</td>\n      <td>" ++ ("<a href=\"" ++ (u ++
      ("\" target=\"_blank\">download</a>" ++ "</td>\n    </tr>")))))))) ++
      q0 ++ dashboardPost, ?_⟩
    apply string_data_ext
    rw [hdoc, hsplit, hrow]
    simp only [String.data_append, List.append_assoc]
  · refine ⟨dashboardPre ++ p0 ++
      ("<tr>\n      <td style=\"font-family:monospace\">" ++ (i ++
      ("</td>\n      <td>" ++ (r ++ "</td>\n      <td>")))),
      ("</td>\n      <td style=\"font-family:monospace\">" ++ (t ++
      ("</td>\n      <td>" ++ ("<a href=\"" ++ (u ++
      ("\" target=\"_blank\">download</a>" ++ "</td>\n    </tr>")))))) ++
      q0 ++ dashboardPost, ?_⟩
    apply string_data_ext
    rw [hdoc, hsplit, hrow]
    simp only [String.data_append, List.append_assoc]
  · refine ⟨dashboardPre ++ p0 ++
      ("<tr>\n      <td style=\"font-family:monospace\">" ++ (i ++
      ("</td>\n      <td>" ++ (r ++
      ("</td>\n      <td>" ++ (st ++
        "</td>\n      <td style=\"font-family:monospace\">")))))),
      ("</td>\n      <td>" ++ ("<a href=\"" ++ (u ++
      ("\" target=\"_blank\">download</a>" ++ "</td>\n    </tr>")))) ++
      q0 ++ dashboardPost, ?_⟩
    apply string_data_ext
    rw [hdoc, hsplit, hrow]
    simp only [String.data_append, List.append_assoc]
  · refine ⟨dashboardPre ++ p0 ++
      ("<tr>\n      <td style=\"font-family:monospace\">" ++ (i ++
      ("</td>\n      <td>" ++ (r ++
      ("</td>\n      <td>" ++ (st ++
      ("</td>\n      <td style=\"font-family:monospace\">" ++ (t ++
      ("</td>\n      <td>" ++ "<a href=\""))))))))),
      ("\" target=\"_blank\">download</a>" ++ "</td>\n    </tr>") ++
      q0 ++ dashboardPost, ?_⟩
    apply string_data_ext
    rw [hdoc, hsplit, hrow]
    simp only [String.data_append, List.append_assoc]

/-- A stored record whose payload carries HTML markup. -/
def scriptedRec : Json :=
  .obj [("id", .str "1"), ("receivedAt", .str "t"),
    ("payload", .obj [("msg", .str "<script>alert(1)</script>"),
      ("data", .obj [("downloadUrl", .str "u")])])]

/-- A store holding just that record. -/
def scriptedStore : Json := .obj [("callbacks", .arr [scriptedRec])]

/-- The scripted store read back. -/
theorem scriptedStore_read :
    getField (readDb (some (writeDb scriptedStore))) "callbacks" =
      some (Json.arr [scriptedRec]) := by
  rw [readDb_writeDb]
  rfl

/-- C10 witness: a payload containing `<script>alert(1)</script>` in its
`msg` appears verbatim in the rendered dashboard page. -/
theorem C10_no_escaping_witness :
    ∃ html, dashboardRoute "tok" nullReq (some (writeDb scriptedStore)) =
        .ok ⟨200, .html html⟩ ∧
      (∃ p q, html = p ++ ("1" ++ q)) ∧ (∃ p q, html = p ++ ("t" ++ q)) ∧
      (∃ p q, html = p ++ ("<script>alert(1)</script>" ++ q)) ∧
      (∃ p q, html = p ++ ("‚Äî" ++ q)) ∧ (∃ p q, html = p ++ ("u" ++ q)) :=
  C10_no_escaping "tok" nullReq (some (writeDb scriptedStore)) [scriptedRec] scriptedRec
    "1" "t" "<script>alert(1)</script>" "‚Äî" "u"
    scriptedStore_read
    (by simp [scriptedRec]) (by simp) rfl rfl rfl rfl rfl (by decide)

end Suno

